import Mathlib

/-!
Verification development for the tonie-skipper audio core (`src/audio.py`).

The Python source is shallowly embedded: bytes are `Nat` values `< 256`, byte
strings are `List Nat`, Ogg pages are a structure of header fields plus a
segment list, and every Python function that can raise an exception is
embedded as a function into `Except PyErr _`.  Quantities that can become
negative in Python (`PAGE_SIZE - size`, the pad length arithmetic in
`pad_packet`) are embedded as `Int` with Python's floor division and modulo
(`Int.fdiv` / `Int.fmod`); Python's `[x] * n` for possibly negative `n` is
`List.replicate (Int.toNat n) x`.  Frame durations (`FRAME_DURATIONS`) are
the exact integer sample counts `{2.5, 5, 10, 20}[c % 4] * 48`; Python stores
the `c % 4 = 0` entries as the float `120.0`, which represents the same
number exactly.
-/

namespace Tonie

/-- Error kinds for the Python exceptions raised by `audio.py`, tagged
following the taxonomy of the specification (§7): `malformedOgg` for the
parser's magic / page-number / truncation assertions, `packetTooLarge` for
the single-packet size assertion in `append_chapter`, `padOverflow` for the
final `raise AssertionError` in `pad_page`, `unsupportedOpus` for the code-2
`size1 < 255` assertion and the already-padded assertion in `pad_packet`,
`keyError` for `FRAME_DURATIONS[config]` lookups outside `16..31`,
`indexError` for out-of-range list indexing, and `assertionFailed` for the
remaining plain `assert` statements. -/
inductive PyErr where
  | malformedOgg
  | packetTooLarge
  | padOverflow
  | unsupportedOpus
  | keyError
  | indexError
  | assertionFailed
deriving DecidableEq, Repr

instance {ε α : Type} [DecidableEq ε] [DecidableEq α] : DecidableEq (Except ε α) := by
  intro x y
  cases x <;> cases y
  case error.error e e' =>
    exact if h : e = e' then isTrue (by rw [h]) else isFalse (by simp [h])
  case error.ok e a => exact isFalse (by simp)
  case ok.error a e => exact isFalse (by simp)
  case ok.ok a a' =>
    exact if h : a = a' then isTrue (by rw [h]) else isFalse (by simp [h])

/-- Constant `PAGE_SIZE = 0x1000` from the source. -/
def PAGE_SIZE : Nat := 0x1000

/-- The four magic bytes `b"OggS"`. -/
def OGG_MAGIC : List Nat := [0x4F, 0x67, 0x67, 0x53]

/-- One shift-and-xor step of the CRC table generation loop:
`k = (k << 1) ^ 0x04c11db7 if k & 0x80000000 else k << 1`. -/
def crcStep (k : Nat) : Nat :=
  if k &&& 0x80000000 ≠ 0 then (k <<< 1) ^^^ 0x04c11db7 else k <<< 1

/-- Entry `i` of `crc_table`: eight `crcStep`s applied to `i << 24`, masked
to 32 bits (the mask is applied once, when the entry is appended). -/
def crcEntry (i : Nat) : Nat := (crcStep^[8] (i <<< 24)) &&& 0xffffffff

/-- The 256-entry CRC table built at module load. -/
def crcTable : List Nat := (List.range 256).map crcEntry

/-- Function `crc32(bytestream)` from the source: MSB-first table-driven CRC with
polynomial `0x04c11db7`, initial value 0, no reflection, no final xor. -/
def crc32 (bs : List Nat) : Nat :=
  bs.foldl
    (fun crc b =>
      ((crc &&& 0xffffff) <<< 8) ^^^ crcTable.getD (((crc >>> 24) ^^^ b) &&& 0xff) 0)
    0

/-- The seven header fields stored in the `info` list of an `OggPage`
(indices `OPH_VERSION .. OPH_SEGMENT_COUNT`). -/
structure PageInfo where
  version : Nat
  pageType : Nat
  granulePos : Nat
  serialNo : Nat
  pageNo : Nat
  checksum : Nat
  segmentCount : Nat
deriving DecidableEq, Repr

/-- An `OggPage`: header info plus the list of segments. -/
structure OggPage where
  info : PageInfo
  segments : List (List Nat)
deriving DecidableEq, Repr

/-- Pack `w` bytes of `v`, little endian, as packed by `struct.pack`.  (Python
raises `struct.error` when `v` is out of range; all values packed by the
source are in range, and the embedding reduces them modulo 256 per byte.) -/
def packLE : Nat → Nat → List Nat
  | 0, _ => []
  | w + 1, v => v % 256 :: packLE w (v / 256)

/-- Serialization `struct.pack("<BBQLLLB", *info)`: the 23 header bytes. -/
def serializeHeader (i : PageInfo) : List Nat :=
  packLE 1 i.version ++ packLE 1 i.pageType ++ packLE 8 i.granulePos ++
    packLE 4 i.serialNo ++ packLE 4 i.pageNo ++ packLE 4 i.checksum ++
    packLE 1 i.segmentCount

/-- Method `OggPage.serialize_body`: the segment table (one length byte per
segment) followed by the concatenated segments. -/
def serializeBody (p : OggPage) : List Nat :=
  p.segments.map List.length ++ p.segments.flatten

/-- Method `OggPage.serialize`: magic, header, body. -/
def OggPage.serialize (p : OggPage) : List Nat :=
  OGG_MAGIC ++ serializeHeader p.info ++ serializeBody p

/-- Method `OggPage.get_size`: `27 + len(segments) + sum(len(s))`. -/
def OggPage.getSize (p : OggPage) : Nat :=
  27 + p.segments.length + (p.segments.map List.length).sum

/-- Method `OggPage.update_checksum`: set `segment_count`, zero the checksum,
serialize, and store the CRC of those bytes. -/
def updateChecksum (p : OggPage) : OggPage :=
  let info1 := { p.info with segmentCount := p.segments.length, checksum := 0 }
  let c := crc32 (OggPage.serialize ⟨info1, p.segments⟩)
  ⟨{ info1 with checksum := c }, p.segments⟩

/-- The adjusted page built inside `OggPage.serialize_with`: clone the info,
force `page_type` to 4 or 0, overwrite granule position and page number,
then update the checksum.  `serialize_with` returns this page's bytes. -/
def serializeWithPage (p : OggPage) (isLast : Bool) (granulePosition pageNum : Nat) :
    OggPage :=
  updateChecksum
    ⟨{ p.info with
        pageType := if isLast then 4 else 0
        granulePos := granulePosition
        pageNo := pageNum },
      p.segments⟩

/-- Method `OggPage.serialize_with(is_last, granule_position, page_num)`. -/
def serializeWith (p : OggPage) (isLast : Bool) (granulePosition pageNum : Nat) :
    List Nat :=
  (serializeWithPage p isLast granulePosition pageNum).serialize

/-- Helper for the 255-byte re-segmentation `[bytes(data[i:i+255]) for i in
range(0, len(data), 255)]` used by `repack_packet` / `pad_packet`: structural
recursion on a fuel argument so that the kernel can evaluate it; `chunk255`
supplies `l.length` as fuel, which always suffices. -/
def chunkFuel : Nat → List Nat → List (List Nat)
  | _, [] => []
  | 0, _ :: _ => []
  | f + 1, b :: rest => (b :: rest.take 254) :: chunkFuel f (rest.drop 254)

/-- Resegmentation `[bytes(data[i:i + 255]) for i in range(0, len(data), 255)]`. -/
def chunk255 (l : List Nat) : List (List Nat) := chunkFuel l.length l

/-- Method `OggPage.get_opus_packets`, accumulator form: `prevLen` is
`prev_len` (255 initially), `cur` the packet being built (reversed),
`acc` the completed packets (reversed). -/
def getOpusPacketsGo :
    List (List Nat) → Nat → List (List Nat) → List (List (List Nat)) →
      List (List (List Nat))
  | [], _, cur, acc => (cur.reverse :: acc).reverse
  | s :: rest, prevLen, cur, acc =>
    if prevLen < 255 then getOpusPacketsGo rest s.length [s] (cur.reverse :: acc)
    else getOpusPacketsGo rest s.length (s :: cur) acc

/-- Method `OggPage.get_opus_packets`: split the segment list into packets; a new
packet starts after each segment shorter than 255 bytes.  On an empty
segment list this is `[[]]`, exactly as in the source. -/
def getOpusPackets (segs : List (List Nat)) : List (List (List Nat)) :=
  getOpusPacketsGo segs 255 [] []

/-- Method `OggPage.set_opus_packets`: flatten the packets back into the segment
list, append an empty terminator segment when the last packet's last
segment is exactly 255 bytes, and return the new segment list together
with `PAGE_SIZE - get_size()` (which Python computes as a possibly negative
`int`).  `packets[-1][-1]` raises `IndexError` on an empty list. -/
def setOpusPackets (packets : List (List (List Nat))) :
    Except PyErr (List (List Nat) × Int) := do
  let some lastPk := packets.getLast? | .error .indexError
  let some lastSeg := lastPk.getLast? | .error .indexError
  let segs := packets.flatten ++ (if lastSeg.length = 255 then [([] : List Nat)] else [])
  .ok (segs, (PAGE_SIZE : Int) - (27 + segs.length + (segs.map List.length).sum : Nat))

/-- Table `FRAME_DURATIONS`: keys `16..31`, value `[2.5, 5, 10, 20][c % 4] * 48`
(an exact integer; lookups outside the key range raise `KeyError`). -/
def FRAME_DURATIONS (c : Nat) : Except PyErr Nat :=
  if 16 ≤ c ∧ c < 32 then .ok ([120, 240, 480, 960].getD (c % 4) 0)
  else .error .keyError

/-- The body of one `get_duration` loop iteration for a packet-initial
segment: read the TOC byte, derive the frame count from the framepacking
code, and multiply by the frame duration for the config value. -/
def frameCountOf (seg : List Nat) (framepacking : Nat) : Except PyErr Nat :=
  if framepacking = 0 then .ok 1
  else if framepacking = 1 then .ok 2
  else if framepacking = 2 then .ok 2
  else do
    let some b1 := seg.get? 1 | .error .indexError
    .ok (b1 &&& 63)

/-- The loop body continued: duration contribution of one packet-initial
segment. -/
def segmentDuration (seg : List Nat) : Except PyErr Nat := do
  let some b0 := seg.get? 0 | .error .indexError
  let frameCount ← frameCountOf seg (b0 &&& 3)
  let fd ← FRAME_DURATIONS (b0 >>> 3)
  .ok (fd * frameCount)

/-- Method `OggPage.get_duration`, recursing over the segments with the previous
segment's length (`prev_length`, initially 0, so the first segment starts
a packet). -/
def getDurationGo : List (List Nat) → Nat → Except PyErr Nat
  | [], _ => .ok 0
  | seg :: rest, prevLength => do
    let contrib ← if prevLength < 255 then segmentDuration seg else .ok 0
    let restDur ← getDurationGo rest seg.length
    .ok (contrib + restDur)

/-- Method `OggPage.get_duration`. -/
def getDuration (p : OggPage) : Except PyErr Nat := getDurationGo p.segments 0

/-- Function `repack_packet`: flatten the packet, convert framepacking codes 0/1/2
to code 3 by setting the two low TOC bits and inserting a frame-count byte
at position 1 (`1`, `2`, or `0x82` for VBR code 2, which additionally
asserts `data[2] < 255`), then re-segment into 255-byte chunks. -/
def repackFcb (data : List Nat) (framepacking : Nat) : Except PyErr Nat :=
  if framepacking = 0 then .ok 1
  else if framepacking = 1 then .ok 2
  else do
    let some size1 := data.get? 2 | .error .indexError
    if size1 < 255 then .ok (2 + 128) else .error .unsupportedOpus

/-- Function `repack_packet`, continued: dispatch on the framepacking code. -/
def repackPacket (packet : List (List Nat)) : Except PyErr (List (List Nat)) := do
  let data := packet.flatten
  let some b0 := data.head? | .error .indexError
  let framepacking := b0 &&& 3
  if framepacking = 3 then .ok (chunk255 data)
  else do
    let frameCountByte ← repackFcb data framepacking
    .ok (chunk255 ((b0 ||| 3) :: frameCountByte :: data.tail))

/-- Function `pad_packet(packet, pad_len)`: requires framepacking 3 and a clear
padding bit; sets the padding bit, then either inserts a single zero
length byte (`pad_len is None`) or splices in the pad-length bytes and
`zero_count` zero bytes computed with Python's floor division and modulo
(`zero_count` may be negative, in which case `[x] * zero_count` is empty
and `zero_count % 255` is the positive Python remainder).  `padZeroCount`
is the `zero_count` computation (`last_seg_len = len(data) % 255`). -/
def padZeroCount (dataLen : Nat) (n : Int) : Int :=
  if (dataLen % 255 : Nat) + n < 255 then n - 1
  else n - ((dataLen % 255 : Nat) + n).fdiv 255 - (n.fdiv 255 + 1)

/-- The new packet data built by `pad_packet` for `pad_len = n`: set the
padding bit on the frame-count byte, splice the pad-length bytes after it,
and append `zero_count` zero bytes. -/
def padData (data : List Nat) (b1 : Nat) (n : Int) : List Nat :=
  (data.set 1 (b1 ||| 64)).take 2 ++
    (List.replicate ((padZeroCount data.length n).fdiv 255).toNat 255 ++
      [((padZeroCount data.length n).fmod 255).toNat]) ++
    (data.set 1 (b1 ||| 64)).drop 2 ++
    List.replicate (padZeroCount data.length n).toNat 0

/-- The new packet data built by `pad_packet` for `pad_len = None`: set the
padding bit and insert a single zero length byte at position 2. -/
def padDataNone (data : List Nat) (b1 : Nat) : List Nat :=
  (data.set 1 (b1 ||| 64)).take 2 ++ [0] ++ (data.set 1 (b1 ||| 64)).drop 2

/-- Function `pad_packet(packet, pad_len)` itself. -/
def padPacket (packet : List (List Nat)) (padLen : Option Int) :
    Except PyErr (List (List Nat)) := do
  let data := packet.flatten
  let some b0 := data.head? | .error .indexError
  if b0 &&& 3 ≠ 3 then .error .assertionFailed
  else do
  let some b1 := data.get? 1 | .error .indexError
  if b1 &&& 64 ≠ 0 then .error .unsupportedOpus
  else
    match padLen with
    | none => .ok (chunk255 (padDataNone data b1))
    | some n => .ok (chunk255 (padData data b1 n))

/-- Assignment `packets[-1] = x` (the lists are nonempty at every use site in the
source; on `[]` Python would raise, the embedding's `List.set` is a no-op
there and the case is unreachable). -/
def setLast (l : List (List (List Nat))) (x : List (List Nat)) :
    List (List (List Nat)) :=
  l.set (l.length - 1) x

/-- Assignment `packets[-2] = x`. -/
def setSecondLast (l : List (List (List Nat))) (x : List (List Nat)) :
    List (List (List Nat)) :=
  l.set (l.length - 2) x

/-- Indexing `packets[-2]`, with Python's `IndexError` when fewer than two packets
exist. -/
def getSecondLast (l : List (List (List Nat))) : Except PyErr (List (List Nat)) :=
  if l.length < 2 then .error .indexError
  else
    match l.get? (l.length - 2) with
    | some x => .ok x
    | none => .error .indexError

/-- Function `pad_page(page, packets)`: the five documented steps.  Each successful
`set_opus_packets` stores the new segment list on the page; the function
returns the page as left by the last step taken.  The final
`raise AssertionError(...)` is the `PadOverflow` failure. -/
def padPage (page : OggPage) (packets0 : List (List (List Nat))) :
    Except PyErr OggPage := do
  let r1 ← setOpusPackets packets0
  if r1.2 = 0 then .ok { page with segments := r1.1 }
  else do
  let some lp0 := packets0.getLast? | .error .indexError
  let p1 ← repackPacket lp0
  let r2 ← setOpusPackets (setLast packets0 p1)
  if r2.2 = 0 then .ok { page with segments := r2.1 }
  else do
  let sl ← getSecondLast (setLast packets0 p1)
  let p2 ← repackPacket sl
  let r3 ← setOpusPackets (setSecondLast (setLast packets0 p1) p2)
  if r3.2 = 0 then .ok { page with segments := r3.1 }
  else do
  let some lp2 := (setSecondLast (setLast packets0 p1) p2).getLast? | .error .indexError
  let p3 ← padPacket lp2 (some r3.2)
  let r4 ← setOpusPackets (setLast (setSecondLast (setLast packets0 p1) p2) p3)
  if r4.2 = 0 then .ok { page with segments := r4.1 }
  else if r4.2 = 1 then do
    let sl2 ← getSecondLast (setLast (setSecondLast (setLast packets0 p1) p2) p3)
    let p4 ← padPacket sl2 none
    let r5 ← setOpusPackets
      (setSecondLast (setLast (setSecondLast (setLast packets0 p1) p2) p3) p4)
    if r5.2 = 0 then .ok { page with segments := r5.1 }
    else .error .padOverflow
  else .error .padOverflow

/-- The tonie outer header as a parsed value object (spec §3): the protobuf
codec itself is an external collaborator; only the fields the audio core
reads are modelled. -/
structure TonieHeader where
  timestamp : Nat
  chapterStartPages : List Nat
deriving DecidableEq, Repr

/-- Structure `TonieAudio`: outer header plus parsed pages. -/
structure TonieAudio where
  header : TonieHeader
  pages : List OggPage
deriving DecidableEq, Repr

/-- Method `TonieAudio.get_chapter_count`. -/
def getChapterCount (ta : TonieAudio) : Nat := ta.header.chapterStartPages.length

/-- Method `TonieAudio.get_chapter_page_nums`: `range(start, end)` where `start`
is the chapter's start page and `end` the next chapter's start page (or
the page count for the last chapter).  Out-of-range chapter numbers raise
`IndexError`. -/
def getChapterPageNums (ta : TonieAudio) (chapterNum : Nat) :
    Except PyErr (List Nat) := do
  let some startNum := ta.header.chapterStartPages.get? chapterNum | .error .indexError
  let endNum :=
    if chapterNum + 1 < ta.header.chapterStartPages.length then
      ta.header.chapterStartPages.getD (chapterNum + 1) 0
    else ta.pages.length
  .ok (List.range' startNum (endNum - startNum))

/-- The `parse_tonie` fix-up of the final page: repack its last Opus packet
to framepacking 3, re-segment, pad the packet by the page's missing byte
count, assert the page is now exactly `PAGE_SIZE`, and update the
checksum.  Returns the page list with the last page replaced (the Python
code mutates it in place). -/
def parseToniePages (pages : List OggPage) : Except PyErr (List OggPage) := do
  let some lastPage := pages.getLast? | .error .indexError
  let some lp := (getOpusPackets lastPage.segments).getLast? | .error .indexError
  let p1 ← repackPacket lp
  let rA ← setOpusPackets (setLast (getOpusPackets lastPage.segments) p1)
  let p2 ← padPacket p1 (some rA.2)
  let rB ← setOpusPackets (setLast (setLast (getOpusPackets lastPage.segments) p1) p2)
  if rB.2 ≠ 0 then .error .assertionFailed
  else .ok (pages.dropLast ++ [updateChecksum { lastPage with segments := rB.1 }])

/-- Little-endian byte decoding, as `struct.unpack` reads the multi-byte
header fields. -/
def decodeLE : List Nat → Nat
  | [] => 0
  | b :: bs => b + 256 * decodeLE bs

/-- Read `segment_count` segments of the given lengths from the stream
(`in_file.read(length)` returns fewer bytes near end of file without
error, exactly as `List.take` does). -/
def readSegments : List Nat → List Nat → List (List Nat) × List Nat
  | [], rem => ([], rem)
  | len :: lens, rem =>
    let res := readSegments lens (rem.drop len)
    (rem.take len :: res.1, res.2)

theorem readSegments_length_le (lens rem : List Nat) :
    (readSegments lens rem).2.length ≤ rem.length := by
  induction lens generalizing rem with
  | nil => exact Nat.le_refl _
  | cons l ls ih =>
    simp only [readSegments]
    exact le_trans (ih (rem.drop l)) (by simp)

/-- Decode the 23 header bytes as `struct.unpack("<BBQLLLB", header)`
does. -/
def headerInfo (header : List Nat) : PageInfo :=
  { version := header.getD 0 0
    pageType := header.getD 1 0
    granulePos := decodeLE ((header.drop 2).take 8)
    serialNo := decodeLE ((header.drop 10).take 4)
    pageNo := decodeLE ((header.drop 14).take 4)
    checksum := decodeLE ((header.drop 18).take 4)
    segmentCount := header.getD 22 0 }

/-- Function `parse_ogg`, reading from position `s` with `k` pages already parsed:
stop with success on clean end of input; fail (`MalformedOgg`) on a bad
magic (`assert magic == OGG_MAGIC`), a truncated 23-byte header
(`struct.unpack` failure), or a `page_no` different from `k`
(`assert page.info[OPH_PAGE_NO] == len(pages)`). -/
def parseOggAux (s : List Nat) (k : Nat) : Except PyErr (List OggPage) :=
  if hs : s = [] then .ok []
  else if s.take 4 ≠ OGG_MAGIC then .error .malformedOgg
  else if ((s.drop 4).take 23).length ≠ 23 then .error .malformedOgg
  else if (headerInfo ((s.drop 4).take 23)).pageNo ≠ k then .error .malformedOgg
  else
    (parseOggAux
        (readSegments
          (((s.drop 4).drop 23).take (headerInfo ((s.drop 4).take 23)).segmentCount)
          (((s.drop 4).drop 23).drop (headerInfo ((s.drop 4).take 23)).segmentCount)).2
        (k + 1)).map
      fun ps =>
        OggPage.mk (headerInfo ((s.drop 4).take 23))
          (readSegments
            (((s.drop 4).drop 23).take (headerInfo ((s.drop 4).take 23)).segmentCount)
            (((s.drop 4).drop 23).drop (headerInfo ((s.drop 4).take 23)).segmentCount)).1
          :: ps
termination_by s.length
decreasing_by
  have hpos : 0 < s.length := List.length_pos.mpr hs
  refine lt_of_le_of_lt (readSegments_length_le _ _) ?_
  simp only [List.length_drop]
  omega

/-- Function `parse_ogg(in_file)`. -/
def parseOgg (s : List Nat) : Except PyErr (List OggPage) := parseOggAux s 0

/-- Function `parse_tonie` after the outer header record has been consumed: the
length-prefixed protobuf header codec is an external collaborator
(spec §1, §4.6), so the embedding takes the decoded header value and the
remaining byte stream. -/
def parseTonieFrom (hdr : TonieHeader) (s : List Nat) : Except PyErr TonieAudio := do
  let pages ← parseOgg s
  let pages' ← parseToniePages pages
  .ok ⟨hdr, pages'⟩

/-! ## `compose`

`compose` writes pages 0 and 1 verbatim (`page.serialize()`), and every
other page through `serialize_with(is_last, granule_position, next_page_num)`
where `is_last = page_num == page_nums[-1]` is evaluated against the current
chapter's page-number list, the granule position accumulates the page
durations, and `next_page_num` counts emitted pages.  The embedding returns
the emitted pages as structures; the bytes written to the output file (and
fed to the SHA-1 that becomes `dataHash`) are their serializations, in
order.  The outer-header backfill (protobuf codec, `dataLength`,
`chapterPages`) is the delegated-codec collaborator of spec §4.6 and is not
modelled. -/

/-- The running state of the `compose` emission loop: the accumulated
granule position and the next output page number. -/
structure EmitState where
  granule : Nat
  next : Nat
deriving DecidableEq, Repr

/-- Emit a single page: verbatim for `page_num < 2`, otherwise relabelled
through `serialize_with` after accumulating the page's duration. -/
def emitOne (ta : TonieAudio) (pageNum : Nat) (isLast : Bool) (st : EmitState) :
    Except PyErr (OggPage × EmitState) := do
  let some page := ta.pages.get? pageNum | .error .indexError
  if pageNum < 2 then .ok (page, { st with next := st.next + 1 })
  else do
    let d ← getDuration page
    .ok (serializeWithPage page isLast (st.granule + d) st.next,
      { granule := st.granule + d, next := st.next + 1 })

/-- Emit a list of `(page_num, is_last)` pairs in order. -/
def emitList (ta : TonieAudio) :
    List (Nat × Bool) → EmitState → Except PyErr (List OggPage × EmitState)
  | [], st => .ok ([], st)
  | pr :: rest, st => do
    let r1 ← emitOne ta pr.1 pr.2 st
    let r2 ← emitList ta rest r1.2
    .ok (r1.1 :: r2.1, r2.2)

/-- Pair every page number of a chapter's (possibly prefix-extended) list
with the `is_last` flag the loop computes: `page_num == page_nums[-1]`. -/
def planPairs (nums : List Nat) : List (Nat × Bool) :=
  match nums.getLast? with
  | none => []
  | some lastN => nums.map fun pn => (pn, pn == lastN)

/-- The page-number list the loop iterates for one chapter: the chapter's
pages, preceded by `[0, 1, 2]` when this is the first chapter of the run
and its chapter number is positive. -/
def chapterNums (ta : TonieAudio) (c : Nat) (first : Bool) :
    Except PyErr (List Nat) := do
  let nums ← getChapterPageNums ta c
  .ok (if first ∧ 0 < c then [0, 1, 2] ++ nums else nums)

/-- Emit one chapter of the `compose` loop. -/
def composeChapter (ta : TonieAudio) (c : Nat) (first : Bool) (st : EmitState) :
    Except PyErr (List OggPage × EmitState) := do
  let nums ← chapterNums ta c first
  emitList ta (planPairs nums) st

/-- The chapter loop of `compose`. -/
def composeGo (ta : TonieAudio) :
    List Nat → Bool → EmitState → Except PyErr (List OggPage × EmitState)
  | [], _, st => .ok ([], st)
  | c :: rest, first, st => do
    let r1 ← composeChapter ta c first st
    let r2 ← composeGo ta rest false r1.2
    .ok (r1.1 ++ r2.1, r2.2)

/-- Function `compose(tonie_audio, out_file, chapter_nums)`: the emitted pages, as
structures, in emission order. -/
def composeStruct (ta : TonieAudio) (chapterNumList : List Nat) :
    Except PyErr (List OggPage) :=
  (composeGo ta chapterNumList true ⟨0, 0⟩).map Prod.fst

/-- The per-page byte blocks `compose` writes (and hashes) after the
header slot: page 0 and 1 verbatim, the rest through `serialize_with`. -/
def composeBlocks (ta : TonieAudio) (chapterNumList : List Nat) :
    Except PyErr (List (List Nat)) :=
  (composeStruct ta chapterNumList).map (List.map OggPage.serialize)

/-- The Ogg payload `compose` writes after the 4096-byte header slot,
which is also exactly the byte sequence fed to the SHA-1 digest that
becomes the header's `dataHash`. -/
def composePayload (ta : TonieAudio) (chapterNumList : List Nat) :
    Except PyErr (List Nat) :=
  (composeBlocks ta chapterNumList).map List.flatten

/-! ## `append_chapter`

`OggPage.__init__` stores the `info` argument by reference, and
`append_chapter` constructs every destination page as
`OggPage(last_page.info)` — so the last pre-existing page and all pages
flushed by the loop share one `info` list.  Each flush writes
`OPH_PAGE_NO`, `OPH_GRANULE_POS`, and (through `update_checksum`)
`OPH_SEGMENT_COUNT` and `OPH_CHECKSUM` into that shared list.  The
embedding threads the shared list's current value (`sharedInfo`) through
the loop and, at the end, gives the source's final page and every flushed
page that final shared value, which is what the Python object graph holds
when the call returns.  Fields `version`, `page_type` and `serial_no` are
never written, so they keep the source last page's values. -/

/-- Loop state of `append_chapter`: output page counter, granule position,
the working packet set with its running size and segment count, the
current value of the shared `info` list with a flag recording whether any
flush has written to it, and the segment lists of the flushed pages. -/
structure AppendSt where
  nextPageNum : Nat
  granule : Nat
  work : List (List (List Nat))
  workSize : Nat
  workSegCount : Nat
  sharedInfo : PageInfo
  mutated : Bool
  newSegs : List (List (List Nat))
deriving DecidableEq, Repr

/-- Close the current working page: build `OggPage(last_page.info)` (the
shared list), overwrite its page number, `pad_page` it to the 4096-byte
grid, accumulate its duration into the granule position, write that into
the shared list, update the checksum (which writes the segment count and
checksum into the shared list), and append the page. -/
def appendFlush (st : AppendSt) : Except PyErr AppendSt := do
  let info1 := { st.sharedInfo with pageNo := st.nextPageNum }
  let dst ← padPage ⟨info1, []⟩ st.work
  let d ← getDuration dst
  let info2 := { info1 with granulePos := st.granule + d }
  let final := updateChecksum ⟨info2, dst.segments⟩
  .ok { nextPageNum := st.nextPageNum + 1
        granule := st.granule + d
        work := []
        workSize := 27
        workSegCount := 0
        sharedInfo := final.info
        mutated := true
        newSegs := st.newSegs ++ [final.segments] }

/-- The packet loop of `append_chapter` over the flat packet sequence
(the source iterates `src_pages[2:]` and, inside, each page's
`get_opus_packets()`; nothing happens between pages, so the loop is the
flat iteration): check the single-packet size assertion, flush when the
packet would overflow the page size or the 255-segment budget, then add
the packet to the working set.  The final working set is not flushed. -/
def appendMaybeFlush (st : AppendSt) (pk : List (List Nat)) : Except PyErr AppendSt :=
  if st.workSize + (pk.length + (pk.map List.length).sum) > PAGE_SIZE ∨
      st.workSegCount + pk.length > 255 then
    appendFlush st
  else .ok st

/-- The packet loop itself. -/
def appendLoop : List (List (List Nat)) → AppendSt → Except PyErr AppendSt
  | [], st => .ok st
  | pk :: rest, st =>
    if ¬(27 + (pk.length + (pk.map List.length).sum) < PAGE_SIZE) then
      .error .packetTooLarge
    else do
      let st1 ← appendMaybeFlush st pk
      appendLoop rest
        { st1 with
            work := st1.work ++ [pk]
            workSize := st1.workSize + (pk.length + (pk.map List.length).sum)
            workSegCount := st1.workSegCount + pk.length }

/-- The flat Opus packet sequence of the source pages after the two
header pages. -/
def srcPackets (srcPages : List OggPage) : List (List (List Nat)) :=
  (srcPages.drop 2).flatMap fun p => getOpusPackets p.segments

/-- Function `append_chapter(tonie_audio, in_file)` after `parse_ogg` has produced
`srcPages`: record the new chapter start page, run the packet loop, and
assemble the resulting `TonieAudio` — including the effect of the shared
`info` list on the pre-existing last page. -/
def appendChapterPages (ta : TonieAudio) (srcPages : List OggPage) :
    Except PyErr (TonieAudio × Nat) := do
  let newChapterNum := getChapterCount ta
  let header' :=
    { ta.header with
        chapterStartPages := ta.header.chapterStartPages ++ [ta.pages.length] }
  let some lastPage := ta.pages.getLast? | .error .indexError
  let stFin ←
    appendLoop (srcPackets srcPages)
      { nextPageNum := ta.pages.length
        granule := lastPage.info.granulePos
        work := []
        workSize := 27
        workSegCount := 0
        sharedInfo := lastPage.info
        mutated := false
        newSegs := [] }
  let oldPages :=
    if stFin.mutated then
      ta.pages.dropLast ++ [OggPage.mk stFin.sharedInfo lastPage.segments]
    else ta.pages
  .ok (⟨header', oldPages ++ stFin.newSegs.map fun segs => OggPage.mk stFin.sharedInfo segs⟩,
    newChapterNum)

/-! ## Basic lemmas about the embedding -/

theorem packLE_length (w v : Nat) : (packLE w v).length = w := by
  induction w generalizing v with
  | zero => rfl
  | succ w ih => simp [packLE, ih]

theorem serializeHeader_length (i : PageInfo) : (serializeHeader i).length = 23 := by
  simp [serializeHeader, packLE_length]

theorem serialize_length (p : OggPage) : p.serialize.length = p.getSize := by
  simp [OggPage.serialize, OggPage.getSize, serializeHeader_length, OGG_MAGIC,
    serializeBody]
  omega

theorem updateChecksum_info (p : OggPage) :
    (updateChecksum p).info.version = p.info.version ∧
    (updateChecksum p).info.pageType = p.info.pageType ∧
    (updateChecksum p).info.granulePos = p.info.granulePos ∧
    (updateChecksum p).info.serialNo = p.info.serialNo ∧
    (updateChecksum p).info.pageNo = p.info.pageNo ∧
    (updateChecksum p).info.segmentCount = p.segments.length := by
  simp [updateChecksum]

theorem updateChecksum_segments (p : OggPage) :
    (updateChecksum p).segments = p.segments := rfl

theorem chunkFuel_fuel_irrel (f : Nat) :
    ∀ (g : Nat) (l : List Nat), l.length ≤ f → l.length ≤ g →
      chunkFuel f l = chunkFuel g l := by
  induction f with
  | zero =>
    intro g l hf _
    have : l = [] := List.length_eq_zero.mp (Nat.le_zero.mp hf)
    subst this
    cases g <;> rfl
  | succ f ih =>
    intro g l hf hg
    match l, g with
    | [], g => cases g <;> rfl
    | b :: rest, 0 => simp at hg
    | b :: rest, g + 1 =>
      simp only [chunkFuel]
      congr 1
      exact ih g (rest.drop 254)
        (by simp only [List.length_drop]; simp at hf; omega)
        (by simp only [List.length_drop]; simp at hg; omega)

theorem chunk255_eq (l : List Nat) :
    chunk255 l = if l = [] then [] else l.take 255 :: chunk255 (l.drop 255) := by
  match l with
  | [] => rfl
  | b :: rest =>
    simp only [chunk255, List.length_cons, chunkFuel, if_neg (List.cons_ne_nil b rest)]
    have h1 : (b :: rest).take 255 = b :: rest.take 254 := rfl
    have h2 : (b :: rest).drop 255 = rest.drop 254 := rfl
    rw [h1, h2]
    congr 1
    exact chunkFuel_fuel_irrel rest.length _ _
      (by simp only [List.length_drop]; omega) (le_refl _)

theorem chunk255_ne_nil (l : List Nat) (h : l ≠ []) : chunk255 l ≠ [] := by
  rw [chunk255_eq, if_neg h]
  exact List.cons_ne_nil _ _

theorem chunk255_flatten_bounded :
    ∀ (n : Nat) (l : List Nat), l.length ≤ n → (chunk255 l).flatten = l := by
  intro n
  induction n with
  | zero =>
    intro l h
    have : l = [] := List.length_eq_zero.mp (Nat.le_zero.mp h)
    subst this; rfl
  | succ n ih =>
    intro l h
    rw [chunk255_eq]
    by_cases hl : l = []
    · simp [hl]
    · rw [if_neg hl]
      have hlen : 0 < l.length := List.length_pos.mpr hl
      simp only [List.flatten_cons]
      rw [ih (l.drop 255) (by simp only [List.length_drop]; omega)]
      exact List.take_append_drop 255 l

theorem chunk255_flatten (l : List Nat) : (chunk255 l).flatten = l :=
  chunk255_flatten_bounded l.length l (le_refl _)

theorem chunk255_length_bounded :
    ∀ (n : Nat) (l : List Nat), l.length ≤ n →
      (chunk255 l).length = (l.length + 254) / 255 := by
  intro n
  induction n with
  | zero =>
    intro l h
    have : l = [] := List.length_eq_zero.mp (Nat.le_zero.mp h)
    subst this; rfl
  | succ n ih =>
    intro l h
    rw [chunk255_eq]
    by_cases hl : l = []
    · subst hl; rfl
    · rw [if_neg hl]
      have hlen : 0 < l.length := List.length_pos.mpr hl
      simp only [List.length_cons]
      rw [ih (l.drop 255) (by simp only [List.length_drop]; omega)]
      simp only [List.length_drop]
      omega

theorem chunk255_length (l : List Nat) :
    (chunk255 l).length = (l.length + 254) / 255 :=
  chunk255_length_bounded l.length l (le_refl _)

theorem chunk255_sum (l : List Nat) :
    ((chunk255 l).map List.length).sum = l.length := by
  have := congrArg List.length (chunk255_flatten l)
  simpa [List.length_flatten] using this

theorem chunk255_getLast_length_bounded :
    ∀ (n : Nat) (l : List Nat), l.length ≤ n → l ≠ [] →
      ∃ c, (chunk255 l).getLast? = some c ∧
        (c.length = 255 ↔ l.length % 255 = 0) := by
  intro n
  induction n with
  | zero =>
    intro l hb h
    exact absurd (List.length_eq_zero.mp (Nat.le_zero.mp hb)) h
  | succ n ih =>
    intro l hb h
    rw [chunk255_eq, if_neg h]
    by_cases hlong : l.drop 255 = []
    · have h255 : l.length ≤ 255 := by
        have := congrArg List.length hlong
        simp only [List.length_drop, List.length_nil] at this
        omega
      have hc : chunk255 (l.drop 255) = [] := by rw [chunk255_eq, if_pos hlong]
      rw [hc]
      refine ⟨l.take 255, rfl, ?_⟩
      have hlen : 0 < l.length := List.length_pos.mpr h
      rw [List.length_take]
      constructor
      · intro hh; omega
      · intro hh; omega
    · have hlen : 0 < l.length := List.length_pos.mpr h
      obtain ⟨c, hc, hiff⟩ := ih (l.drop 255)
        (by simp only [List.length_drop]; omega) hlong
      refine ⟨c, ?_, ?_⟩
      · cases hcc : chunk255 (l.drop 255) with
        | nil => exact absurd hcc (chunk255_ne_nil _ hlong)
        | cons x xs =>
          rw [hcc] at hc
          rw [List.getLast?_cons_cons]
          exact hc
      · have hlen2 : 255 < l.length := by
          by_contra hcon
          exact hlong (List.drop_eq_nil_of_le (by omega))
        rw [hiff]
        simp only [List.length_drop]
        omega

theorem chunk255_getLast_length (l : List Nat) (h : l ≠ []) :
    ∃ c, (chunk255 l).getLast? = some c ∧
      (c.length = 255 ↔ l.length % 255 = 0) :=
  chunk255_getLast_length_bounded l.length l (le_refl _) h

theorem set_append2_last {α : Type} (init : List α) (a b x : α) :
    (init ++ [a, b]).set (init.length + 1) x = init ++ [a, x] := by
  induction init with
  | nil => rfl
  | cons y ys ih =>
    simp only [List.cons_append, List.length_cons]
    rw [List.set_cons_succ]
    rw [ih]

theorem set_append2_secondLast {α : Type} (init : List α) (a b x : α) :
    (init ++ [a, b]).set init.length x = init ++ [x, b] := by
  induction init with
  | nil => rfl
  | cons y ys ih =>
    simp only [List.cons_append, List.length_cons]
    rw [List.set_cons_succ]
    rw [ih]

theorem getLast?_append2 {α : Type} (init : List α) (a b : α) :
    (init ++ [a, b]).getLast? = some b := by
  have h : init ++ [a, b] = (init ++ [a]) ++ [b] := by simp
  rw [h, List.getLast?_concat]

/-- Assignment `packets[-1] = x` on a list of shape `init ++ [a, b]`. -/
theorem setLast_eq (init : List (List (List Nat))) (a b x : List (List Nat)) :
    setLast (init ++ [a, b]) x = init ++ [a, x] := by
  have h : (init ++ [a, b]).length - 1 = init.length + 1 := by simp
  rw [setLast, h, set_append2_last]

theorem setSecondLast_eq (init : List (List (List Nat))) (a b x : List (List Nat)) :
    setSecondLast (init ++ [a, b]) x = init ++ [x, b] := by
  have h : (init ++ [a, b]).length - 2 = init.length := by simp
  rw [setSecondLast, h, set_append2_secondLast]

theorem getSecondLast_eq (init : List (List (List Nat))) (a b : List (List Nat)) :
    getSecondLast (init ++ [a, b]) = .ok a := by
  have h : (init ++ [a, b]).length - 2 = init.length := by simp
  have h2 : (init ++ [a, b]).get? init.length = some a := by
    rw [List.get?_eq_getElem?, List.getElem?_append_right (le_refl _)]
    simp
  rw [getSecondLast, if_neg (by simp), h, h2]

/-- Unfolding `set_opus_packets` on a successful call. -/
theorem setOpusPackets_ok_iff (packets : List (List (List Nat)))
    (lp : List (List Nat)) (ls : List Nat)
    (h1 : packets.getLast? = some lp) (h2 : lp.getLast? = some ls) :
    setOpusPackets packets =
      .ok (packets.flatten ++ (if ls.length = 255 then [([] : List Nat)] else []),
        (PAGE_SIZE : Int) -
          (27 + (packets.flatten ++ (if ls.length = 255 then [([] : List Nat)] else [])).length +
            ((packets.flatten ++ (if ls.length = 255 then [([] : List Nat)] else [])).map
              List.length).sum : Nat)) := by
  simp only [setOpusPackets, h1, h2]

/-- Every successful `set_opus_packets` returns the missing-byte count
`PAGE_SIZE - get_size()` for the segment list it installs. -/
theorem setOpusPackets_missing (packets : List (List (List Nat)))
    (segs : List (List Nat)) (m : Int)
    (h : setOpusPackets packets = .ok (segs, m)) :
    m = (PAGE_SIZE : Int) - (27 + segs.length + (segs.map List.length).sum : Nat) := by
  match hp : packets.getLast? with
  | none =>
    simp only [setOpusPackets, hp] at h
    exact absurd h (by simp)
  | some lp =>
    match hs : lp.getLast? with
    | none =>
      simp only [setOpusPackets, hp, hs] at h
      exact absurd h (by simp)
    | some ls =>
      rw [setOpusPackets_ok_iff packets lp ls hp hs] at h
      rw [Except.ok.injEq, Prod.mk.injEq] at h
      obtain ⟨h1, h2⟩ := h
      rw [← h2, ← h1]

theorem lor3_land3 (x : Nat) : (x ||| 3) &&& 3 = 3 := by
  apply Nat.eq_of_testBit_eq
  intro i
  simp only [Nat.testBit_land, Nat.testBit_lor]
  cases h : Nat.testBit 3 i <;> simp [h]

/-- Check that `repack_packet` will not raise: the flattened data is
nonempty, and a framepacking-2 packet has a third byte smaller than 255
(this is the `size1 = data[2]; assert size1 < 255` check of the source,
which reads the byte at index 2 of the un-repacked data). -/
def repackSafeB (pk : List (List Nat)) : Bool :=
  match pk.flatten.head? with
  | none => false
  | some b0 =>
    if b0 &&& 3 = 2 then
      match pk.flatten.get? 2 with
      | some v => v < 255
      | none => false
    else true

/-- Check that the packet, once repacked to framepacking 3, can be handed
to `pad_packet`: for an already code-3 packet the second byte must exist
and have the padding bit clear; packets of codes 0/1/2 get a fresh
frame-count byte with the padding bit clear. -/
def padReadyB (pk : List (List Nat)) : Bool :=
  match pk.flatten.head? with
  | none => false
  | some b0 =>
    if b0 &&& 3 = 3 then
      match pk.flatten.get? 1 with
      | some b1 => b1 &&& 64 = 0
      | none => false
    else true

/-- Under the two safety checks, `repack_packet` succeeds and returns a
re-chunked data list that is nonempty, has framepacking 3, and has its
padding bit clear. -/
theorem repackPacket_spec (pk : List (List Nat))
    (hsafe : repackSafeB pk = true) (hready : padReadyB pk = true) :
    ∃ d', repackPacket pk = .ok (chunk255 d') ∧ d' ≠ [] ∧
      (∃ b0', d'.get? 0 = some b0' ∧ b0' &&& 3 = 3) ∧
      (∃ b1', d'.get? 1 = some b1' ∧ b1' &&& 64 = 0) ∧
      d'.length =
        pk.flatten.length + (if pk.flatten.headD 0 &&& 3 = 3 then 0 else 1) := by
  match hh : pk.flatten.head? with
  | none =>
    simp only [repackSafeB, hh] at hsafe
    exact absurd hsafe (by simp)
  | some b0 =>
    have hne : pk.flatten ≠ [] := by
      intro hcon; rw [hcon] at hh; exact absurd hh (by simp)
    have hdata : pk.flatten = b0 :: pk.flatten.tail := by
      cases hd : pk.flatten with
      | nil => exact absurd hd hne
      | cons x xs =>
        rw [hd] at hh
        simp only [List.head?_cons, Option.some.injEq] at hh
        rw [hh]
        rfl
    by_cases h3 : b0 &&& 3 = 3
    · -- already framepacking 3: data is returned re-chunked and unchanged
      simp only [padReadyB, hh, if_pos h3] at hready
      match h1 : pk.flatten.get? 1 with
      | none =>
        simp only [h1] at hready
        exact absurd hready (by simp)
      | some b1 =>
        simp only [h1, decide_eq_true_eq] at hready
        refine ⟨pk.flatten, ?_, hne, ⟨b0, ?_, h3⟩, ⟨b1, h1, hready⟩, ?_⟩
        · simp only [repackPacket, hh, if_pos h3]
        · rw [hdata]; rfl
        · simp [List.headD_eq_head?, hh, h3]
    · -- framepacking 0, 1 or 2: a frame-count byte is inserted
      have hfcb : ∃ fcb,
          repackFcb pk.flatten (b0 &&& 3) = (.ok fcb : Except PyErr Nat) ∧
            fcb &&& 64 = 0 := by
        by_cases h0 : b0 &&& 3 = 0
        · exact ⟨1, by rw [repackFcb, if_pos h0], by decide⟩
        · by_cases h1 : b0 &&& 3 = 1
          · exact ⟨2, by rw [repackFcb, if_neg h0, if_pos h1], by decide⟩
          · have h2 : b0 &&& 3 = 2 := by
              have hlt : b0 &&& 3 ≤ 3 := Nat.and_le_right
              omega
            simp only [repackSafeB, hh, if_pos h2] at hsafe
            match hv : pk.flatten.get? 2 with
            | none =>
              simp only [hv] at hsafe
              exact absurd hsafe (by simp)
            | some v =>
              simp only [hv, decide_eq_true_eq] at hsafe
              refine ⟨2 + 128, ?_, by decide⟩
              simp only [repackFcb, if_neg h0, if_neg h1, hv]
              rw [if_pos hsafe]
      obtain ⟨fcb, hfcb, hfcb64⟩ := hfcb
      refine ⟨(b0 ||| 3) :: fcb :: pk.flatten.tail, ?_, by simp, ⟨b0 ||| 3, rfl, lor3_land3 b0⟩,
        ⟨fcb, rfl, hfcb64⟩, ?_⟩
      · simp only [repackPacket, hh, if_neg h3]
        rw [hfcb]
        rfl
      · rw [List.headD_eq_head?, hh]
        simp only [Option.getD_some, if_neg h3]
        conv_lhs => rw [hdata]
        have hpos : 0 < pk.flatten.length := List.length_pos.mpr hne
        simp only [List.length_cons, List.length_tail]
        omega

/-- Under the framepacking-3 and clear-padding-bit conditions, `pad_packet`
succeeds and returns the re-chunked padded data. -/
theorem padPacket_ok (pk : List (List Nat)) (b0 b1 : Nat) (padLen : Option Int)
    (h0 : pk.flatten.head? = some b0) (h3 : b0 &&& 3 = 3)
    (h1 : pk.flatten.get? 1 = some b1) (h64 : b1 &&& 64 = 0) :
    padPacket pk padLen =
      .ok (chunk255 (match padLen with
        | none => padDataNone pk.flatten b1
        | some n => padData pk.flatten b1 n)) := by
  match padLen with
  | none =>
    simp only [padPacket, h0, h1]
    rw [if_neg (by rw [h3]; exact fun hc => hc rfl),
      if_neg (by rw [h64]; exact fun hc => hc rfl)]
  | some n =>
    simp only [padPacket, h0, h1]
    rw [if_neg (by rw [h3]; exact fun hc => hc rfl),
      if_neg (by rw [h64]; exact fun hc => hc rfl)]

theorem get?_one_imp_len2 (l : List Nat) (b1 : Nat) (h1 : l.get? 1 = some b1) :
    2 ≤ l.length := by
  by_contra hcon
  rw [List.get?_eq_getElem?, List.getElem?_eq_none (by omega)] at h1
  exact absurd h1 (by simp)

theorem padData_ne_nil (data : List Nat) (b1 : Nat) (n : Int)
    (h2 : 2 ≤ data.length) : padData data b1 n ≠ [] := by
  intro hcon
  have := congrArg List.length hcon
  simp only [padData, List.length_append, List.length_take, List.length_set,
    List.length_nil] at this
  omega

/-- In the simple padding case (`last_seg_len + pad_len < 255` with
`pad_len ≥ 1`), `pad_packet` adds exactly `pad_len` bytes to the packet
data. -/
theorem padData_length_simple (data : List Nat) (b1 : Nat) (n : Int)
    (h2 : 2 ≤ data.length) (hn : 1 ≤ n)
    (hres : ((data.length % 255 : Nat) : Int) + n < 255) :
    ((padData data b1 n).length : Int) = data.length + n := by
  have hmodpos : (0 : Int) ≤ ((data.length % 255 : Nat) : Int) := by positivity
  have hzc : padZeroCount data.length n = n - 1 := by
    rw [padZeroCount, if_pos hres]
  have hfd : (n - 1).fdiv 255 = 0 := by
    rw [Int.fdiv_eq_ediv _ (by norm_num)]
    exact Int.ediv_eq_zero_of_lt (by omega) (by omega)
  have hfm : (n - 1).fmod 255 = n - 1 := by
    rw [Int.fmod_eq_emod _ (by norm_num)]
    exact Int.emod_eq_of_lt (by omega) (by omega)
  simp only [padData, hzc, hfd, hfm, Int.toNat_zero, List.replicate_zero,
    List.nil_append, List.length_append, List.length_take, List.length_drop,
    List.length_set, List.length_replicate, List.length_cons, List.length_nil]
  omega

/-- Size bookkeeping of `set_opus_packets` when the last packet is a
255-byte re-chunking of a nonempty data list: the page consumes
`len(data) + len(data) / 255 + 1` bytes for that packet (data, segment
table entries, and the empty terminator segment when the data length is a
multiple of 255). -/
theorem setOpusPackets_chunk (init : List (List (List Nat))) (data : List Nat)
    (hd : data ≠ []) :
    setOpusPackets (init ++ [chunk255 data]) =
      .ok (init.flatten ++ chunk255 data ++
          (if data.length % 255 = 0 then [([] : List Nat)] else []),
        (PAGE_SIZE : Int) -
          ((27 + init.flatten.length + (init.flatten.map List.length).sum +
            (data.length + data.length / 255 + 1) : Nat) : Int)) := by
  obtain ⟨c, hc, hiff⟩ := chunk255_getLast_length data hd
  have hlp : (init ++ [chunk255 data]).getLast? = some (chunk255 data) :=
    List.getLast?_concat _
  rw [setOpusPackets_ok_iff (init ++ [chunk255 data]) (chunk255 data) c hlp hc]
  have hterm : (if c.length = 255 then [([] : List Nat)] else []) =
      (if data.length % 255 = 0 then [([] : List Nat)] else []) := by
    by_cases hmod : data.length % 255 = 0
    · rw [if_pos (hiff.mpr hmod), if_pos hmod]
    · rw [if_neg (fun hcc => hmod (hiff.mp hcc)), if_neg hmod]
  have hflat : (init ++ [chunk255 data]).flatten = init.flatten ++ chunk255 data := by
    simp
  rw [hterm, hflat]
  have hpos : 0 < data.length := List.length_pos.mpr hd
  have hchlen : (chunk255 data).length = (data.length + 254) / 255 :=
    chunk255_length data
  have hchsum : ((chunk255 data).map List.length).sum = data.length :=
    chunk255_sum data
  have hsz : 27 + (init.flatten ++ chunk255 data ++
        (if data.length % 255 = 0 then [([] : List Nat)] else [])).length +
      ((init.flatten ++ chunk255 data ++
        (if data.length % 255 = 0 then [([] : List Nat)] else [])).map List.length).sum =
      27 + init.flatten.length + (init.flatten.map List.length).sum +
        (data.length + data.length / 255 + 1) := by
    by_cases hmod : data.length % 255 = 0
    · rw [if_pos hmod]
      simp only [List.length_append, List.map_append, List.sum_append, hchlen, hchsum,
        List.length_cons, List.length_nil, List.map_cons, List.map_nil, List.sum_cons,
        List.sum_nil]
      omega
    · rw [if_neg hmod]
      simp only [List.length_append, List.map_append, List.sum_append, hchlen, hchsum,
        List.length_cons, List.length_nil, List.map_cons, List.map_nil, List.sum_cons,
        List.sum_nil]
      omega
  rw [hsz]

theorem get?_zero_eq_head? (l : List Nat) : l.get? 0 = l.head? := by
  cases l <;> rfl

/-! ## Claim C5 -/

/-- C5, counterexample: for the framepacking-0 packet `p = [0x80, 0x05]`
and pad amount `n = 2`, `pad_packet(repack_packet(p), 2)` serializes to 5
bytes, not `len(serialize(p)) + n = 4`: the frame-count byte inserted by
the repack step is an extra byte that `pad_packet` does not subtract from
its own contribution. -/
theorem C5_pad_length_counterexample :
    (do
      let q ← repackPacket [[128, 5]]
      let r ← padPacket q (some 2)
      pure r.flatten.length : Except PyErr Nat) = .ok 5 ∧
    ([[128, 5]] : List (List Nat)).flatten.length + 2 = 4 := by
  constructor
  · decide
  · decide

/-- C5, amended: for a packet of framepacking 0, 1 or 2 (with the byte at
index 2 below 255 when the code is 2 — the byte `repack_packet` actually
checks) and a pad amount `n ≥ 2` in the simple padding case
(`(len(p) + 1) % 255 + n < 255`), the serialization of
`pad_packet(repack_packet(p), n)` is exactly `n + 1` bytes longer than the
serialization of `p`: `n` bytes from the pad and one frame-count byte from
the repack, which the pad amount does not cover. -/
theorem C5_pad_length_amended (pk : List (List Nat)) (n : Int)
    (hfp : pk.flatten.headD 0 &&& 3 ≠ 3)
    (hsafe : repackSafeB pk = true)
    (hn : 2 ≤ n)
    (hres : (((pk.flatten.length + 1) % 255 : Nat) : Int) + n < 255) :
    ∃ q r, repackPacket pk = .ok q ∧ padPacket q (some n) = .ok r ∧
      (r.flatten.length : Int) = pk.flatten.length + n + 1 := by
  have hready : padReadyB pk = true := by
    match hh : pk.flatten.head? with
    | none =>
      simp only [repackSafeB, hh] at hsafe
      exact absurd hsafe (by simp)
    | some b0 =>
      have hb : b0 &&& 3 ≠ 3 := by
        rw [List.headD_eq_head?, hh] at hfp
        exact hfp
      simp only [padReadyB, hh]
      rw [if_neg hb]
  obtain ⟨d', hrep, hne, ⟨b0', hb0, hb03⟩, ⟨b1', hb1, hb164⟩, hlen⟩ :=
    repackPacket_spec pk hsafe hready
  rw [if_neg hfp] at hlen
  have hflat : (chunk255 d').flatten = d' := chunk255_flatten d'
  have h0 : (chunk255 d').flatten.head? = some b0' := by
    rw [hflat, ← get?_zero_eq_head?]
    exact hb0
  have h1 : (chunk255 d').flatten.get? 1 = some b1' := by rw [hflat]; exact hb1
  have h2 : 2 ≤ d'.length := get?_one_imp_len2 d' b1' hb1
  have hpad := padPacket_ok (chunk255 d') b0' b1' (some n) h0 hb03 h1 hb164
  refine ⟨chunk255 d', chunk255 (padData (chunk255 d').flatten b1' n), hrep, hpad, ?_⟩
  rw [chunk255_flatten, hflat]
  have hdlen := padData_length_simple d' b1' n h2 (by omega)
    (by rw [hlen]; exact hres)
  rw [hdlen, hlen]
  push_cast
  ring

/-- C5 witness: the amended theorem applied to the packet `[0x80, 0x05]`
with `n = 2`. -/
theorem C5_pad_length_amended_witness :
    (([[128, 5]] : List (List Nat)).flatten.headD 0 &&& 3 ≠ 3) ∧
    repackSafeB [[128, 5]] = true ∧
    (2 : Int) ≤ 2 ∧
    (((([[128, 5]] : List (List Nat)).flatten.length + 1) % 255 : Nat) : Int) + 2 < 255 ∧
    (∃ q r, repackPacket [[128, 5]] = .ok q ∧ padPacket q (some 2) = .ok r ∧
      (r.flatten.length : Int) = ([[128, 5]] : List (List Nat)).flatten.length + 2 + 1) :=
  ⟨by decide, by decide, by decide, by decide,
    C5_pad_length_amended [[128, 5]] 2 (by decide) (by decide) (by decide) (by decide)⟩

/-! ## Claim C10: `parse_ogg` -/

theorem decodeLE_packLE (w v : Nat) (h : v < 2 ^ (8 * w)) :
    decodeLE (packLE w v) = v := by
  induction w generalizing v with
  | zero =>
    interval_cases v
    rfl
  | succ w ih =>
    have hdiv : v / 256 < 2 ^ (8 * w) := by
      rw [Nat.div_lt_iff_lt_mul (by norm_num)]
      calc v < 2 ^ (8 * (w + 1)) := h
      _ = 2 ^ (8 * w) * 256 := by rw [Nat.mul_succ, pow_add]; norm_num
    rw [packLE, decodeLE, ih (v / 256) hdiv]
    omega

/-- A page's header fields are in the ranges `struct.pack` accepts, its
`page_no` is `k`, its stored segment count matches the segment list, and
its segments each fit a single length byte. -/
def pageWF (p : OggPage) (k : Nat) : Prop :=
  p.info.version < 256 ∧ p.info.pageType < 256 ∧ p.info.granulePos < 2 ^ 64 ∧
    p.info.serialNo < 2 ^ 32 ∧ p.info.pageNo = k ∧ k < 2 ^ 32 ∧
    p.info.checksum < 2 ^ 32 ∧ p.info.segmentCount = p.segments.length ∧
    p.segments.length < 256 ∧ ∀ seg ∈ p.segments, seg.length ≤ 255

instance (p : OggPage) (k : Nat) : Decidable (pageWF p k) := by
  unfold pageWF
  infer_instance

theorem headerInfo_serializeHeader (i : PageInfo)
    (h1 : i.version < 256) (h2 : i.pageType < 256) (h3 : i.granulePos < 2 ^ 64)
    (h4 : i.serialNo < 2 ^ 32) (h5 : i.pageNo < 2 ^ 32) (h6 : i.checksum < 2 ^ 32)
    (h7 : i.segmentCount < 256) :
    headerInfo (serializeHeader i) = i := by
  have hsh : serializeHeader i =
      i.version % 256 :: i.pageType % 256 ::
        (packLE 8 i.granulePos ++ (packLE 4 i.serialNo ++ (packLE 4 i.pageNo ++
          (packLE 4 i.checksum ++ [i.segmentCount % 256])))) := by
    simp [serializeHeader, packLE]
  rw [headerInfo, hsh]
  have e2 : (i.version % 256 :: i.pageType % 256 ::
      (packLE 8 i.granulePos ++ (packLE 4 i.serialNo ++ (packLE 4 i.pageNo ++
        (packLE 4 i.checksum ++ [i.segmentCount % 256]))))).drop 2 =
      packLE 8 i.granulePos ++ (packLE 4 i.serialNo ++ (packLE 4 i.pageNo ++
        (packLE 4 i.checksum ++ [i.segmentCount % 256]))) := rfl
  have t8 : (packLE 8 i.granulePos ++ (packLE 4 i.serialNo ++ (packLE 4 i.pageNo ++
      (packLE 4 i.checksum ++ [i.segmentCount % 256])))).take 8 =
      packLE 8 i.granulePos := List.take_left' (packLE_length 8 _)
  have d8 : (packLE 8 i.granulePos ++ (packLE 4 i.serialNo ++ (packLE 4 i.pageNo ++
      (packLE 4 i.checksum ++ [i.segmentCount % 256])))).drop 8 =
      packLE 4 i.serialNo ++ (packLE 4 i.pageNo ++
        (packLE 4 i.checksum ++ [i.segmentCount % 256])) := List.drop_left' (packLE_length 8 _)
  have t4a : (packLE 4 i.serialNo ++ (packLE 4 i.pageNo ++
      (packLE 4 i.checksum ++ [i.segmentCount % 256]))).take 4 =
      packLE 4 i.serialNo := List.take_left' (packLE_length 4 _)
  have d4a : (packLE 4 i.serialNo ++ (packLE 4 i.pageNo ++
      (packLE 4 i.checksum ++ [i.segmentCount % 256]))).drop 4 =
      packLE 4 i.pageNo ++ (packLE 4 i.checksum ++ [i.segmentCount % 256]) :=
    List.drop_left' (packLE_length 4 _)
  have t4b : (packLE 4 i.pageNo ++ (packLE 4 i.checksum ++ [i.segmentCount % 256])).take 4 =
      packLE 4 i.pageNo := List.take_left' (packLE_length 4 _)
  have d4b : (packLE 4 i.pageNo ++ (packLE 4 i.checksum ++ [i.segmentCount % 256])).drop 4 =
      packLE 4 i.checksum ++ [i.segmentCount % 256] := List.drop_left' (packLE_length 4 _)
  have t4c : (packLE 4 i.checksum ++ [i.segmentCount % 256]).take 4 =
      packLE 4 i.checksum := List.take_left' (packLE_length 4 _)
  have hd10 : ∀ (x y : Nat) (l : List Nat), (x :: y :: l).drop 10 = l.drop 8 := by
    intro x y l; rfl
  have hd14 : ∀ (x y : Nat) (l : List Nat), (x :: y :: l).drop 14 = l.drop 12 := by
    intro x y l; rfl
  have hd18 : ∀ (x y : Nat) (l : List Nat), (x :: y :: l).drop 18 = l.drop 16 := by
    intro x y l; rfl
  have hd12 : (packLE 8 i.granulePos ++ (packLE 4 i.serialNo ++ (packLE 4 i.pageNo ++
      (packLE 4 i.checksum ++ [i.segmentCount % 256])))).drop 12 =
      packLE 4 i.pageNo ++ (packLE 4 i.checksum ++ [i.segmentCount % 256]) := by
    rw [show (12 : Nat) = 8 + 4 from rfl, ← List.drop_drop, d8, d4a]
  have hd16 : (packLE 8 i.granulePos ++ (packLE 4 i.serialNo ++ (packLE 4 i.pageNo ++
      (packLE 4 i.checksum ++ [i.segmentCount % 256])))).drop 16 =
      packLE 4 i.checksum ++ [i.segmentCount % 256] := by
    rw [show (16 : Nat) = 12 + 4 from rfl, ← List.drop_drop, hd12, d4b]
  have hgd22 : (i.version % 256 :: i.pageType % 256 ::
      (packLE 8 i.granulePos ++ (packLE 4 i.serialNo ++ (packLE 4 i.pageNo ++
        (packLE 4 i.checksum ++ [i.segmentCount % 256]))))).getD 22 0 =
      i.segmentCount % 256 := by
    have hlen : (packLE 8 i.granulePos ++ (packLE 4 i.serialNo ++ (packLE 4 i.pageNo ++
        packLE 4 i.checksum))).length = 20 := by
      simp [packLE_length]
    have hassoc : packLE 8 i.granulePos ++ (packLE 4 i.serialNo ++ (packLE 4 i.pageNo ++
        (packLE 4 i.checksum ++ [i.segmentCount % 256]))) =
        (packLE 8 i.granulePos ++ (packLE 4 i.serialNo ++ (packLE 4 i.pageNo ++
          packLE 4 i.checksum))) ++ [i.segmentCount % 256] := by
      simp
    rw [List.getD]
    rw [show ∀ (x y : Nat) (l : List Nat), (x :: y :: l).get? 22 = l.get? 20
      from fun x y l => rfl]
    rw [List.get?_eq_getElem?]
    rw [hassoc, List.getElem?_append_right (by omega), hlen]
    simp
  simp only [List.getD_cons_zero, List.getD_cons_succ, e2, hd10, hd14, hd18, t8, d8,
    t4a, hd12, t4b, hd16, t4c, hgd22]
  rw [decodeLE_packLE 8 _ h3, decodeLE_packLE 4 _ h4, decodeLE_packLE 4 _ h5,
    decodeLE_packLE 4 _ h6]
  rw [Nat.mod_eq_of_lt h1, Nat.mod_eq_of_lt h2, Nat.mod_eq_of_lt h7]

theorem readSegments_exact (segs : List (List Nat)) (suffix : List Nat) :
    readSegments (segs.map List.length) (segs.flatten ++ suffix) = (segs, suffix) := by
  induction segs with
  | nil => rfl
  | cons s rest ih =>
    simp only [List.map_cons, List.flatten_cons, readSegments, List.append_assoc]
    rw [List.take_left' rfl, List.drop_left' rfl, ih]

/-- Parsing the concatenated serializations of well-formed pages starting
at page number `k` returns exactly those pages and consumes the whole
stream. -/
theorem parseOggAux_roundtrip (ps : List OggPage) (k : Nat)
    (hwf : ∀ i (hi : i < ps.length), pageWF (ps.get ⟨i, hi⟩) (k + i)) :
    parseOggAux ((ps.map OggPage.serialize).flatten) k = .ok ps := by
  induction ps generalizing k with
  | nil =>
    rw [parseOggAux]
    simp
  | cons p rest ih =>
    obtain ⟨w1, w2, w3, w4, w5, w6, w7, w8, w9, w10⟩ := hwf 0 (by simp)
    simp only [List.get] at w1 w2 w3 w4 w5 w6 w7 w8 w9 w10
    have hser : (((p :: rest).map OggPage.serialize).flatten) =
        OGG_MAGIC ++ serializeHeader p.info ++ serializeBody p ++
          ((rest.map OggPage.serialize).flatten) := by
      simp [OggPage.serialize]
    rw [hser]
    have hne : OGG_MAGIC ++ serializeHeader p.info ++ serializeBody p ++
        ((rest.map OggPage.serialize).flatten) ≠ [] := by
      simp [OGG_MAGIC]
    have hmagic : (OGG_MAGIC ++ serializeHeader p.info ++ serializeBody p ++
        ((rest.map OggPage.serialize).flatten)).take 4 = OGG_MAGIC := by
      rw [List.append_assoc, List.append_assoc]
      exact List.take_left' rfl
    have hdrop4 : (OGG_MAGIC ++ serializeHeader p.info ++ serializeBody p ++
        ((rest.map OggPage.serialize).flatten)).drop 4 =
        serializeHeader p.info ++ (serializeBody p ++
          ((rest.map OggPage.serialize).flatten)) := by
      rw [List.append_assoc, List.append_assoc]
      exact List.drop_left' rfl
    have htake23 : (serializeHeader p.info ++ (serializeBody p ++
        ((rest.map OggPage.serialize).flatten))).take 23 = serializeHeader p.info :=
      List.take_left' (serializeHeader_length p.info)
    have hdrop23 : (serializeHeader p.info ++ (serializeBody p ++
        ((rest.map OggPage.serialize).flatten))).drop 23 =
        serializeBody p ++ ((rest.map OggPage.serialize).flatten) :=
      List.drop_left' (serializeHeader_length p.info)
    have hhi : headerInfo (serializeHeader p.info) = p.info :=
      headerInfo_serializeHeader p.info w1 w2 w3 w4 (w5 ▸ w6) w7 (w8 ▸ w9)
    rw [parseOggAux]
    rw [dif_neg hne]
    rw [hmagic, if_neg (fun hc => hc rfl)]
    rw [hdrop4, htake23]
    rw [if_neg (by rw [serializeHeader_length]; exact fun hc => hc rfl)]
    rw [hhi]
    rw [if_neg (by rw [w5]; exact fun hc => hc rfl)]
    rw [hdrop23]
    have hbody : serializeBody p ++ ((rest.map OggPage.serialize).flatten) =
        p.segments.map List.length ++ (p.segments.flatten ++
          ((rest.map OggPage.serialize).flatten)) := by
      simp [serializeBody]
    rw [hbody, w8]
    rw [List.take_left' (by simp), List.drop_left' (by simp)]
    rw [readSegments_exact]
    have hrec : parseOggAux ((rest.map OggPage.serialize).flatten) (k + 1) = .ok rest := by
      apply ih
      intro i hi
      have := hwf (i + 1) (by simp; omega)
      simp only [List.get] at this ⊢
      have harith : k + 1 + i = k + (i + 1) := by omega
      rw [harith]
      exact this
    rw [hrec]
    rfl

theorem parseOggAux_pageNo_bounded :
    ∀ (n : Nat) (s : List Nat) (k : Nat) (ps : List OggPage), s.length ≤ n →
      parseOggAux s k = .ok ps →
      ∀ i (hi : i < ps.length), (ps.get ⟨i, hi⟩).info.pageNo = k + i := by
  intro n
  induction n with
  | zero =>
    intro s k ps hb h i hi
    have hs : s = [] := List.length_eq_zero.mp (Nat.le_zero.mp hb)
    subst hs
    rw [parseOggAux] at h
    rw [dif_pos rfl] at h
    injection h with h'
    subst h'
    exact absurd hi (by simp)
  | succ n ih =>
    intro s k ps hb h i hi
    rw [parseOggAux] at h
    by_cases hs : s = []
    · rw [dif_pos hs] at h
      injection h with h'
      subst h'
      exact absurd hi (by simp)
    · rw [dif_neg hs] at h
      by_cases hm : s.take 4 ≠ OGG_MAGIC
      · rw [if_pos hm] at h; exact absurd h (by simp)
      · rw [if_neg hm] at h
        by_cases hh : ((s.drop 4).take 23).length ≠ 23
        · rw [if_pos hh] at h; exact absurd h (by simp)
        · rw [if_neg hh] at h
          by_cases hp : (headerInfo ((s.drop 4).take 23)).pageNo ≠ k
          · rw [if_pos hp] at h; exact absurd h (by simp)
          · rw [if_neg hp] at h
            cases hrec : parseOggAux
                (readSegments
                  (((s.drop 4).drop 23).take
                    (headerInfo ((s.drop 4).take 23)).segmentCount)
                  (((s.drop 4).drop 23).drop
                    (headerInfo ((s.drop 4).take 23)).segmentCount)).2 (k + 1) with
            | error e =>
              rw [hrec] at h
              exact absurd h (by simp [Except.map])
            | ok ps' =>
              rw [hrec] at h
              simp only [Except.map] at h
              injection h with h'
              subst h'
              match i with
              | 0 =>
                show (headerInfo ((s.drop 4).take 23)).pageNo = k + 0
                rw [not_ne_iff.mp hp]
                omega
              | i' + 1 =>
                have hlen : (readSegments
                    (((s.drop 4).drop 23).take
                      (headerInfo ((s.drop 4).take 23)).segmentCount)
                    (((s.drop 4).drop 23).drop
                      (headerInfo ((s.drop 4).take 23)).segmentCount)).2.length ≤ n := by
                  refine le_trans (readSegments_length_le _ _) ?_
                  simp only [List.length_drop]
                  omega
                have hrec2 := ih _ (k + 1) ps' hlen hrec i' (by simpa using hi)
                have hget : ((OggPage.mk (headerInfo ((s.drop 4).take 23))
                    (readSegments
                      (((s.drop 4).drop 23).take
                        (headerInfo ((s.drop 4).take 23)).segmentCount)
                      (((s.drop 4).drop 23).drop
                        (headerInfo ((s.drop 4).take 23)).segmentCount)).1) ::
                      ps').get ⟨i' + 1, hi⟩ = ps'.get ⟨i', by simpa using hi⟩ := rfl
                rw [hget, hrec2]
                omega

/-- C10 (confirmed): `parse_ogg` (1) numbers parsed pages `k, k+1, ...` —
with `k = 0` at top level the `i`-th page's `page_no` is `i`; (2) stops
with success on clean end-of-input at a page boundary — parsing the
concatenation of the serializations of well-formed pages returns exactly
those pages; (3) fails with `MalformedOgg` when the four magic bytes are
not `OggS`; and (4) fails with `MalformedOgg` when a page's `page_no`
field differs from its zero-based position.  On failure the result is an
`Except.error`, so no page list is produced. -/
theorem C10_parse_ogg :
    (∀ (s : List Nat) (ps : List OggPage), parseOgg s = .ok ps →
      ∀ i (hi : i < ps.length), (ps.get ⟨i, hi⟩).info.pageNo = i) ∧
    (∀ (ps : List OggPage), (∀ i (hi : i < ps.length), pageWF (ps.get ⟨i, hi⟩) i) →
      parseOgg ((ps.map OggPage.serialize).flatten) = .ok ps) ∧
    (∀ (s : List Nat) (k : Nat), s ≠ [] → s.take 4 ≠ OGG_MAGIC →
      parseOggAux s k = .error .malformedOgg) ∧
    (∀ (s : List Nat) (k : Nat), s.take 4 = OGG_MAGIC →
      ((s.drop 4).take 23).length = 23 →
      (headerInfo ((s.drop 4).take 23)).pageNo ≠ k →
      parseOggAux s k = .error .malformedOgg) := by
  refine ⟨?_, ?_, ?_, ?_⟩
  · intro s ps h i hi
    have := parseOggAux_pageNo_bounded s.length s 0 ps (le_refl _) h i hi
    simpa using this
  · intro ps hwf
    exact parseOggAux_roundtrip ps 0 (by simpa using hwf)
  · intro s k hs hm
    rw [parseOggAux, dif_neg hs, if_pos hm]
  · intro s k hm hh hp
    have hs : s ≠ [] := by
      intro hc
      subst hc
      exact absurd hm (by decide)
    rw [parseOggAux, dif_neg hs, if_neg (fun hc => hc hm),
      if_neg (fun hc => hc hh), if_pos hp]

/-- Two small well-formed pages used to instantiate C10. -/
def c10Pages : List OggPage :=
  [⟨⟨0, 2, 0, 5, 0, 0, 1⟩, [[1, 2, 3]]⟩, ⟨⟨0, 0, 960, 5, 1, 0, 0⟩, []⟩]

/-- C10 witness: the theorem applied to a concrete two-page stream, a
concrete bad-magic stream, and a concrete wrong-page-number stream. -/
theorem C10_parse_ogg_witness :
    (parseOgg ((c10Pages.map OggPage.serialize).flatten) = .ok c10Pages ∧
      ∀ i (hi : i < c10Pages.length),
        (c10Pages.get ⟨i, hi⟩).info.pageNo = i) ∧
    parseOggAux [1, 2, 3] 0 = .error .malformedOgg ∧
    parseOggAux (OGG_MAGIC ++ serializeHeader ⟨0, 0, 0, 0, 7, 0, 0⟩) 0 =
      .error .malformedOgg := by
  have hwf : ∀ i (hi : i < c10Pages.length), pageWF (c10Pages.get ⟨i, hi⟩) i := by
    intro i hi
    have h2 : i < 2 := by simpa [c10Pages] using hi
    interval_cases i
    · exact (by decide : pageWF ⟨⟨0, 2, 0, 5, 0, 0, 1⟩, [[1, 2, 3]]⟩ 0)
    · exact (by decide : pageWF ⟨⟨0, 0, 960, 5, 1, 0, 0⟩, []⟩ 1)
  have hrt := C10_parse_ogg.2.1 c10Pages hwf
  refine ⟨⟨hrt, ?_⟩, ?_, ?_⟩
  · intro i hi
    exact C10_parse_ogg.1 _ c10Pages hrt i hi
  · exact C10_parse_ogg.2.2.1 [1, 2, 3] 0 (by decide) (by decide)
  · exact C10_parse_ogg.2.2.2 (OGG_MAGIC ++ serializeHeader ⟨0, 0, 0, 0, 7, 0, 0⟩) 0
      (by decide) (by decide) (by decide)

/-! ## Error classification lemmas -/

theorem except_bind_ok {α β : Type} (a : α) (f : α → Except PyErr β) :
    (Except.ok a >>= f) = f a := rfl

theorem except_bind_err {α β : Type} (e : PyErr) (f : α → Except PyErr β) :
    ((Except.error e : Except PyErr α) >>= f) = .error e := rfl

theorem setOpusPackets_err (packets : List (List (List Nat))) (e : PyErr)
    (h : setOpusPackets packets = .error e) : e = .indexError := by
  match hp : packets.getLast? with
  | none =>
    simp only [setOpusPackets, hp] at h
    rw [Except.error.injEq] at h
    exact h.symm
  | some lp =>
    match hs : lp.getLast? with
    | none =>
      simp only [setOpusPackets, hp, hs] at h
      rw [Except.error.injEq] at h
      exact h.symm
    | some ls =>
      simp only [setOpusPackets, hp, hs] at h
      exact absurd h (by simp)

theorem repackFcb_err (data : List Nat) (fp : Nat) (e : PyErr)
    (h : repackFcb data fp = .error e) : e = .indexError ∨ e = .unsupportedOpus := by
  rw [repackFcb] at h
  by_cases h0 : fp = 0
  · rw [if_pos h0] at h; exact absurd h (by simp)
  · rw [if_neg h0] at h
    by_cases h1 : fp = 1
    · rw [if_pos h1] at h; exact absurd h (by simp)
    · rw [if_neg h1] at h
      match hv : data.get? 2 with
      | none =>
        simp only [hv] at h
        rw [Except.error.injEq] at h
        exact Or.inl h.symm
      | some v =>
        simp only [hv] at h
        by_cases hlt : v < 255
        · rw [if_pos hlt] at h; exact absurd h (by simp)
        · rw [if_neg hlt] at h
          rw [Except.error.injEq] at h
          exact Or.inr h.symm

theorem repackPacket_err (pk : List (List Nat)) (e : PyErr)
    (h : repackPacket pk = .error e) : e = .indexError ∨ e = .unsupportedOpus := by
  match hh : pk.flatten.head? with
  | none =>
    simp only [repackPacket, hh] at h
    rw [Except.error.injEq] at h
    exact Or.inl h.symm
  | some b0 =>
    simp only [repackPacket, hh] at h
    by_cases h3 : b0 &&& 3 = 3
    · rw [if_pos h3] at h; exact absurd h (by simp)
    · rw [if_neg h3] at h
      match hf : repackFcb pk.flatten (b0 &&& 3) with
      | .error e' =>
        rw [hf, except_bind_err, Except.error.injEq] at h
        exact h ▸ repackFcb_err _ _ _ hf
      | .ok v =>
        rw [hf, except_bind_ok] at h
        exact absurd h (by simp)

theorem padPacket_err (pk : List (List Nat)) (padLen : Option Int) (e : PyErr)
    (h : padPacket pk padLen = .error e) :
    e = .indexError ∨ e = .unsupportedOpus ∨ e = .assertionFailed := by
  match hh : pk.flatten.head? with
  | none =>
    simp only [padPacket, hh] at h
    rw [Except.error.injEq] at h
    exact Or.inl h.symm
  | some b0 =>
    simp only [padPacket, hh] at h
    by_cases h3 : b0 &&& 3 ≠ 3
    · rw [if_pos h3] at h
      rw [Except.error.injEq] at h
      exact Or.inr (Or.inr h.symm)
    · rw [if_neg h3] at h
      match h1 : pk.flatten.get? 1 with
      | none =>
        simp only [h1] at h
        rw [Except.error.injEq] at h
        exact Or.inl h.symm
      | some b1 =>
        simp only [h1] at h
        by_cases h64 : b1 &&& 64 ≠ 0
        · rw [if_pos h64] at h
          rw [Except.error.injEq] at h
          exact Or.inr (Or.inl h.symm)
        · rw [if_neg h64] at h
          match padLen with
          | none => exact absurd h (by simp)
          | some n => exact absurd h (by simp)

theorem getSecondLast_err (l : List (List (List Nat))) (e : PyErr)
    (h : getSecondLast l = .error e) : e = .indexError := by
  rw [getSecondLast] at h
  by_cases hl : l.length < 2
  · rw [if_pos hl, Except.error.injEq] at h
    exact h.symm
  · rw [if_neg hl] at h
    match hg : l.get? (l.length - 2) with
    | some x => rw [hg] at h; exact absurd h (by simp)
    | none =>
      rw [hg, Except.error.injEq] at h
      exact h.symm

/-- Every failure `pad_page` can raise is one of `IndexError`, the
`UnsupportedOpus` conditions, the internal framepacking assertion, or the
final `PadOverflow`; in particular it is never `PacketTooLarge` or a
`KeyError`. -/
theorem padPage_err (page : OggPage) (packets0 : List (List (List Nat))) (e : PyErr)
    (h : padPage page packets0 = .error e) : e ≠ .packetTooLarge ∧ e ≠ .keyError := by
  have hok : ∀ e', e' = PyErr.indexError ∨ e' = PyErr.unsupportedOpus ∨
      e' = PyErr.assertionFailed ∨ e' = PyErr.padOverflow →
      e' ≠ PyErr.packetTooLarge ∧ e' ≠ PyErr.keyError := by
    intro e' he'
    rcases he' with h' | h' | h' | h' <;> subst h' <;> exact ⟨by simp, by simp⟩
  rw [padPage] at h
  match hA : setOpusPackets packets0 with
  | .error eA =>
    rw [hA, except_bind_err, Except.error.injEq] at h
    exact h ▸ hok eA (Or.inl (setOpusPackets_err _ _ hA))
  | .ok r1 =>
    rw [hA, except_bind_ok] at h
    by_cases hm1 : r1.2 = 0
    · rw [if_pos hm1] at h; exact absurd h (by simp)
    rw [if_neg hm1] at h
    match hL : packets0.getLast? with
    | none =>
      simp only [hL] at h
      rw [Except.error.injEq] at h
      exact h ▸ hok _ (Or.inl rfl)
    | some lp0 =>
      simp only [hL] at h
      match hR : repackPacket lp0 with
      | .error eR =>
        rw [hR, except_bind_err, Except.error.injEq] at h
        refine h ▸ hok eR ?_
        rcases repackPacket_err _ _ hR with h' | h'
        · exact Or.inl h'
        · exact Or.inr (Or.inl h')
      | .ok p1 =>
        rw [hR, except_bind_ok] at h
        match hB : setOpusPackets (setLast packets0 p1) with
        | .error eB =>
          rw [hB, except_bind_err, Except.error.injEq] at h
          exact h ▸ hok eB (Or.inl (setOpusPackets_err _ _ hB))
        | .ok r2 =>
          rw [hB, except_bind_ok] at h
          by_cases hm2 : r2.2 = 0
          · rw [if_pos hm2] at h; exact absurd h (by simp)
          rw [if_neg hm2] at h
          match hS : getSecondLast (setLast packets0 p1) with
          | .error eS =>
            rw [hS, except_bind_err, Except.error.injEq] at h
            exact h ▸ hok eS (Or.inl (getSecondLast_err _ _ hS))
          | .ok sl =>
            rw [hS, except_bind_ok] at h
            match hR2 : repackPacket sl with
            | .error eR2 =>
              rw [hR2, except_bind_err, Except.error.injEq] at h
              refine h ▸ hok eR2 ?_
              rcases repackPacket_err _ _ hR2 with h' | h'
              · exact Or.inl h'
              · exact Or.inr (Or.inl h')
            | .ok p2 =>
              rw [hR2, except_bind_ok] at h
              match hC : setOpusPackets (setSecondLast (setLast packets0 p1) p2) with
              | .error eC =>
                rw [hC, except_bind_err, Except.error.injEq] at h
                exact h ▸ hok eC (Or.inl (setOpusPackets_err _ _ hC))
              | .ok r3 =>
                rw [hC, except_bind_ok] at h
                by_cases hm3 : r3.2 = 0
                · rw [if_pos hm3] at h; exact absurd h (by simp)
                rw [if_neg hm3] at h
                match hL2 : (setSecondLast (setLast packets0 p1) p2).getLast? with
                | none =>
                  simp only [hL2] at h
                  rw [Except.error.injEq] at h
                  exact h ▸ hok _ (Or.inl rfl)
                | some lp2 =>
                  simp only [hL2] at h
                  match hP : padPacket lp2 (some r3.2) with
                  | .error eP =>
                    rw [hP, except_bind_err, Except.error.injEq] at h
                    refine h ▸ hok eP ?_
                    rcases padPacket_err _ _ _ hP with h' | h' | h'
                    · exact Or.inl h'
                    · exact Or.inr (Or.inl h')
                    · exact Or.inr (Or.inr (Or.inl h'))
                  | .ok p3 =>
                    rw [hP, except_bind_ok] at h
                    match hD : setOpusPackets
                        (setLast (setSecondLast (setLast packets0 p1) p2) p3) with
                    | .error eD =>
                      rw [hD, except_bind_err, Except.error.injEq] at h
                      exact h ▸ hok eD (Or.inl (setOpusPackets_err _ _ hD))
                    | .ok r4 =>
                      rw [hD, except_bind_ok] at h
                      by_cases hm4 : r4.2 = 0
                      · rw [if_pos hm4] at h; exact absurd h (by simp)
                      rw [if_neg hm4] at h
                      by_cases hm41 : r4.2 = 1
                      · rw [if_pos hm41] at h
                        match hS2 : getSecondLast
                            (setLast (setSecondLast (setLast packets0 p1) p2) p3) with
                        | .error eS2 =>
                          rw [hS2, except_bind_err, Except.error.injEq] at h
                          exact h ▸ hok eS2 (Or.inl (getSecondLast_err _ _ hS2))
                        | .ok sl2 =>
                          rw [hS2, except_bind_ok] at h
                          match hP2 : padPacket sl2 none with
                          | .error eP2 =>
                            rw [hP2, except_bind_err, Except.error.injEq] at h
                            refine h ▸ hok eP2 ?_
                            rcases padPacket_err _ _ _ hP2 with h' | h' | h'
                            · exact Or.inl h'
                            · exact Or.inr (Or.inl h')
                            · exact Or.inr (Or.inr (Or.inl h'))
                          | .ok p4 =>
                            rw [hP2, except_bind_ok] at h
                            match hE : setOpusPackets (setSecondLast
                                (setLast (setSecondLast (setLast packets0 p1) p2) p3) p4) with
                            | .error eE =>
                              rw [hE, except_bind_err, Except.error.injEq] at h
                              exact h ▸ hok eE (Or.inl (setOpusPackets_err _ _ hE))
                            | .ok r5 =>
                              rw [hE, except_bind_ok] at h
                              by_cases hm5 : r5.2 = 0
                              · rw [if_pos hm5] at h; exact absurd h (by simp)
                              · rw [if_neg hm5, Except.error.injEq] at h
                                exact h ▸ hok _ (Or.inr (Or.inr (Or.inr rfl)))
                      · rw [if_neg hm41, Except.error.injEq] at h
                        exact h ▸ hok _ (Or.inr (Or.inr (Or.inr rfl)))

theorem segmentDuration_err (seg : List Nat) (e : PyErr)
    (h : segmentDuration seg = .error e) : e = .indexError ∨ e = .keyError := by
  match h0 : seg.get? 0 with
  | none =>
    simp only [segmentDuration, h0] at h
    rw [Except.error.injEq] at h
    exact Or.inl h.symm
  | some b0 =>
    simp only [segmentDuration, h0] at h
    have hfc : frameCountOf seg (b0 &&& 3) = .error .indexError ∨
        ∃ v, frameCountOf seg (b0 &&& 3) = .ok v := by
      rw [frameCountOf]
      by_cases hc0 : b0 &&& 3 = 0
      · rw [if_pos hc0]; exact Or.inr ⟨1, rfl⟩
      rw [if_neg hc0]
      by_cases hc1 : b0 &&& 3 = 1
      · rw [if_pos hc1]; exact Or.inr ⟨2, rfl⟩
      rw [if_neg hc1]
      by_cases hc2 : b0 &&& 3 = 2
      · rw [if_pos hc2]; exact Or.inr ⟨2, rfl⟩
      rw [if_neg hc2]
      match h1 : seg.get? 1 with
      | none => simp [h1]
      | some b1 => simp [h1]
    rcases hfc with hfc' | ⟨v, hfc'⟩
    · rw [hfc', except_bind_err, Except.error.injEq] at h
      exact Or.inl h.symm
    · rw [hfc', except_bind_ok] at h
      match hfd : FRAME_DURATIONS (b0 >>> 3) with
      | .error e' =>
        rw [hfd, except_bind_err, Except.error.injEq] at h
        rw [FRAME_DURATIONS] at hfd
        by_cases hr : 16 ≤ b0 >>> 3 ∧ b0 >>> 3 < 32
        · rw [if_pos hr] at hfd; exact absurd hfd (by simp)
        · rw [if_neg hr, Except.error.injEq] at hfd
          exact Or.inr (h ▸ hfd ▸ rfl)
      | .ok d =>
        rw [hfd, except_bind_ok] at h
        exact absurd h (by simp)

theorem getDurationGo_err (segs : List (List Nat)) (prev : Nat) (e : PyErr)
    (h : getDurationGo segs prev = .error e) : e = .indexError ∨ e = .keyError := by
  induction segs generalizing prev with
  | nil => exact absurd h (by simp [getDurationGo])
  | cons seg rest ih =>
    rw [getDurationGo] at h
    by_cases hp : prev < 255
    · rw [if_pos hp] at h
      match hc : segmentDuration seg with
      | .error e' =>
        rw [hc, except_bind_err, Except.error.injEq] at h
        exact h ▸ segmentDuration_err _ _ hc
      | .ok d =>
        rw [hc, except_bind_ok] at h
        beta_reduce at h
        match hr : getDurationGo rest seg.length with
        | .error e' =>
          rw [hr, except_bind_err, Except.error.injEq] at h
          subst h
          exact ih _ hr
        | .ok d' =>
          rw [hr, except_bind_ok] at h
          exact absurd h (by simp)
    · rw [if_neg hp, except_bind_ok] at h
      beta_reduce at h
      match hr : getDurationGo rest seg.length with
      | .error e' =>
        rw [hr, except_bind_err, Except.error.injEq] at h
        subst h
        exact ih _ hr
      | .ok d' =>
        rw [hr, except_bind_ok] at h
        exact absurd h (by simp)

theorem getDuration_err (p : OggPage) (e : PyErr)
    (h : getDuration p = .error e) : e = .indexError ∨ e = .keyError :=
  getDurationGo_err _ _ _ h

/-- A flush of the working page never raises `PacketTooLarge`. -/
theorem appendFlush_err (st : AppendSt) (e : PyErr)
    (h : appendFlush st = .error e) : e ≠ .packetTooLarge := by
  simp only [appendFlush] at h
  match hP : padPage ⟨{ st.sharedInfo with pageNo := st.nextPageNum }, []⟩ st.work with
  | .error eP =>
    rw [hP, except_bind_err, Except.error.injEq] at h
    exact h ▸ (padPage_err _ _ _ hP).1
  | .ok dst =>
    rw [hP, except_bind_ok] at h
    match hD : getDuration dst with
    | .error eD =>
      rw [hD, except_bind_err, Except.error.injEq] at h
      rcases getDuration_err _ _ hD with h' | h' <;> subst h' <;> simp [← h]
    | .ok d =>
      rw [hD, except_bind_ok] at h
      exact absurd h (by simp)

/-- Whenever the packet loop fails with `PacketTooLarge`, some packet's
segment table plus payload reaches `PAGE_SIZE - 27`. -/
theorem appendLoop_ptl (pks : List (List (List Nat))) :
    ∀ st, appendLoop pks st = .error .packetTooLarge →
      ∃ pk ∈ pks, PAGE_SIZE ≤ 27 + (pk.length + (pk.map List.length).sum) := by
  induction pks with
  | nil =>
    intro st h
    exact absurd h (by simp [appendLoop])
  | cons pk rest ih =>
    intro st h
    rw [appendLoop] at h
    by_cases hbig : ¬(27 + (pk.length + (pk.map List.length).sum) < PAGE_SIZE)
    · exact ⟨pk, by simp, by omega⟩
    · rw [if_neg hbig] at h
      match hf : appendMaybeFlush st pk with
      | .error e =>
        rw [hf, except_bind_err, Except.error.injEq] at h
        rw [appendMaybeFlush] at hf
        by_cases hc : st.workSize + (pk.length + (pk.map List.length).sum) > PAGE_SIZE ∨
            st.workSegCount + pk.length > 255
        · rw [if_pos hc] at hf
          exact absurd h (appendFlush_err st e hf)
        · rw [if_neg hc] at hf
          exact absurd hf (by simp)
      | .ok st1 =>
        rw [hf, except_bind_ok] at h
        obtain ⟨pk', hmem, hge⟩ := ih _ h
        exact ⟨pk', by simp [hmem], hge⟩

/-! ## Claim C8 -/

/-- C8, amended: `append_chapter` raises `PacketTooLarge` only when some
incoming packet's segment table plus payload is at least
`PAGE_SIZE - 27` bytes (the source asserts `27 + added_size < PAGE_SIZE`,
so the boundary value `PAGE_SIZE - 27` is rejected, not accepted); if the
very first packet is that large the call certainly fails with
`PacketTooLarge`, and if every packet is strictly below `PAGE_SIZE - 27`
the call never fails with `PacketTooLarge` (though page flushes may still
fail with other errors). -/
theorem C8_packet_too_large (ta : TonieAudio) (srcPages : List OggPage) :
    (appendChapterPages ta srcPages = .error .packetTooLarge →
      ∃ pk ∈ srcPackets srcPages,
        PAGE_SIZE - 27 ≤ pk.length + (pk.map List.length).sum) ∧
    ((∀ pk ∈ srcPackets srcPages,
        pk.length + (pk.map List.length).sum < PAGE_SIZE - 27) →
      appendChapterPages ta srcPages ≠ .error .packetTooLarge) ∧
    (∀ pk pks, ta.pages ≠ [] → srcPackets srcPages = pk :: pks →
      PAGE_SIZE - 27 ≤ pk.length + (pk.map List.length).sum →
      appendChapterPages ta srcPages = .error .packetTooLarge) := by
  refine ⟨?_, ?_, ?_⟩
  · intro h
    rw [appendChapterPages] at h
    match hL : ta.pages.getLast? with
    | none =>
      simp only [hL] at h
      exact absurd h (by simp)
    | some lastPage =>
      simp only [hL] at h
      match hA : appendLoop (srcPackets srcPages)
          { nextPageNum := ta.pages.length, granule := lastPage.info.granulePos,
            work := [], workSize := 27, workSegCount := 0,
            sharedInfo := lastPage.info, mutated := false, newSegs := [] } with
      | .error e =>
        rw [hA, except_bind_err, Except.error.injEq] at h
        obtain ⟨pk, hmem, hge⟩ := appendLoop_ptl _ _ (h ▸ hA)
        exact ⟨pk, hmem, by omega⟩
      | .ok stFin =>
        rw [hA, except_bind_ok] at h
        exact absurd h (by simp)
  · intro hall h
    obtain ⟨pk, hmem, hge⟩ := (by
      rw [appendChapterPages] at h
      match hL : ta.pages.getLast? with
      | none =>
        simp only [hL] at h
        exact absurd h (by simp)
      | some lastPage =>
        simp only [hL] at h
        match hA : appendLoop (srcPackets srcPages)
            { nextPageNum := ta.pages.length, granule := lastPage.info.granulePos,
              work := [], workSize := 27, workSegCount := 0,
              sharedInfo := lastPage.info, mutated := false, newSegs := [] } with
        | .error e =>
          rw [hA, except_bind_err, Except.error.injEq] at h
          exact appendLoop_ptl _ _ (h ▸ hA)
        | .ok stFin =>
          rw [hA, except_bind_ok] at h
          exact absurd h (by simp) :
      ∃ pk ∈ srcPackets srcPages,
        PAGE_SIZE ≤ 27 + (pk.length + (pk.map List.length).sum))
    have := hall pk hmem
    omega
  · intro pk pks hne hsrc hge
    rw [appendChapterPages]
    match hL : ta.pages.getLast? with
    | none => exact absurd (List.getLast?_eq_none_iff.mp hL) hne
    | some lastPage =>
      simp only [hL]
      rw [hsrc, appendLoop]
      rw [if_pos (by rw [PAGE_SIZE] at hge ⊢; omega)]
      rfl

/-- A small three-page tonie audio used for the `append_chapter` claims. -/
def c8Audio : TonieAudio :=
  ⟨⟨7, [2]⟩,
    [⟨⟨0, 2, 0, 7, 0, 0, 1⟩, [[1]]⟩,
     ⟨⟨0, 0, 0, 7, 1, 0, 1⟩, [[2]]⟩,
     ⟨⟨0, 4, 960, 7, 2, 0, 1⟩, [[139, 1]]⟩]⟩

/-- A source page carrying one Opus packet whose segment table plus
payload is exactly `PAGE_SIZE - 27 = 4069` bytes (16 segments, 4053
payload bytes). -/
def c8BigPage : OggPage :=
  ⟨⟨0, 0, 960, 9, 2, 0, 16⟩,
    List.replicate 15 (List.replicate 255 0) ++ [List.replicate 228 0]⟩

/-- Source pages whose only audio packet sits exactly at the boundary. -/
def c8Src : List OggPage :=
  [⟨⟨0, 2, 0, 9, 0, 0, 1⟩, [[1]]⟩, ⟨⟨0, 0, 0, 9, 1, 0, 1⟩, [[2]]⟩, c8BigPage]

/-- Small source pages, all packets far below the size limit. -/
def c8SmallSrc : List OggPage :=
  [⟨⟨0, 2, 0, 9, 0, 0, 1⟩, [[1]]⟩, ⟨⟨0, 0, 0, 9, 1, 0, 1⟩, [[2]]⟩,
    ⟨⟨0, 0, 960, 9, 2, 0, 2⟩, [[139, 1, 5], [139, 1, 6]]⟩]

set_option maxRecDepth 20000 in
/-- C8, counterexample: a packet whose segment table plus payload is
exactly `PAGE_SIZE - 27` bytes — which the claim says is accepted — is
rejected with `PacketTooLarge` (`assert 27 + added_size < PAGE_SIZE`
fails at equality). -/
theorem C8_packet_too_large_counterexample :
    (∃ pk ∈ srcPackets c8Src,
      pk.length + (pk.map List.length).sum = PAGE_SIZE - 27) ∧
    appendChapterPages c8Audio c8Src = .error .packetTooLarge := by
  constructor
  · decide
  · decide

set_option maxRecDepth 20000 in
/-- C8 witness: the amended theorem applied to the boundary-sized source
(which must fail with `PacketTooLarge`) and to an all-small source (which
must not). -/
theorem C8_packet_too_large_witness :
    (c8Audio.pages ≠ [] ∧
      srcPackets c8Src =
        [List.replicate 15 (List.replicate 255 0) ++ [List.replicate 228 0]] ∧
      appendChapterPages c8Audio c8Src = .error .packetTooLarge) ∧
    ((∀ pk ∈ srcPackets c8SmallSrc,
        pk.length + (pk.map List.length).sum < PAGE_SIZE - 27) ∧
      appendChapterPages c8Audio c8SmallSrc ≠ .error .packetTooLarge) := by
  refine ⟨⟨by decide, by decide, ?_⟩, ⟨by decide, ?_⟩⟩
  · exact (C8_packet_too_large c8Audio c8Src).2.2
      (List.replicate 15 (List.replicate 255 0) ++ [List.replicate 228 0]) []
      (by decide) (by decide) (by decide)
  · exact (C8_packet_too_large c8Audio c8SmallSrc).2.1 (by decide)

/-! ## Claim C4: `pad_page` -/

theorem setOpusPackets_ok_of (packets : List (List (List Nat)))
    (lp : List (List Nat)) (h1 : packets.getLast? = some lp) (h2 : lp ≠ []) :
    ∃ r, setOpusPackets packets = .ok r ∧
      r.2 = (PAGE_SIZE : Int) - (27 + r.1.length + (r.1.map List.length).sum : Nat) := by
  obtain ⟨ls, hls⟩ := Option.isSome_iff_exists.mp (List.getLast?_isSome.mpr h2)
  refine ⟨_, setOpusPackets_ok_iff packets lp ls h1 hls, rfl⟩

theorem padDataNone_ne_nil (data : List Nat) (b1 : Nat) (h2 : 2 ≤ data.length) :
    padDataNone data b1 ≠ [] := by
  intro hcon
  have := congrArg List.length hcon
  simp only [padDataNone, List.length_append, List.length_take, List.length_set,
    List.length_nil, List.length_cons] at this
  omega

theorem ne_nil_of_flatten_head (pk : List (List Nat)) (b : Nat)
    (h : pk.flatten.head? = some b) : pk ≠ [] := by
  intro hcon
  subst hcon
  exact absurd h (by simp)

theorem padReadyB_flatten_head (pk : List (List Nat)) (h : padReadyB pk = true) :
    ∃ b, pk.flatten.head? = some b := by
  match hh : pk.flatten.head? with
  | none =>
    simp only [padReadyB, hh] at h
    exact absurd h (by simp)
  | some b => exact ⟨b, rfl⟩

/-- C4, amended: for a page handed at least two packets whose last and
second-to-last packets avoid the `UnsupportedOpus` conditions
(`repackSafeB`: nonempty data, and a code-2 packet has its byte at index
2 below 255; `padReadyB`: a code-3 packet has its padding bit clear — the
claim's "unpadded final packet", extended to the second-to-last packet
which step 5 may also pad), `pad_page` either returns a page that
re-serializes to exactly `PAGE_SIZE = 4096` bytes or fails with
`PadOverflow`; no other failure is possible.  The segment-length bound
mirrors `bytes()`'s requirement on the Python side. -/
theorem C4_pad_page (page : OggPage) (init : List (List (List Nat)))
    (sl lp : List (List Nat))
    (hsafeL : repackSafeB lp = true) (hreadyL : padReadyB lp = true)
    (hsafeS : repackSafeB sl = true) (hreadyS : padReadyB sl = true)
    (_hseg : ∀ pk ∈ init ++ [sl, lp], ∀ s ∈ pk, s.length ≤ 255) :
    (∀ p', padPage page (init ++ [sl, lp]) = .ok p' →
      p'.serialize.length = PAGE_SIZE) ∧
    (∀ e, padPage page (init ++ [sl, lp]) = .error e → e = .padOverflow) := by
  obtain ⟨bL, hbL⟩ := padReadyB_flatten_head lp hreadyL
  have hlpne : lp ≠ [] := ne_nil_of_flatten_head lp bL hbL
  have key :
      (∃ segs, padPage page (init ++ [sl, lp]) =
          .ok ⟨page.info, segs⟩ ∧
        (27 + segs.length + (segs.map List.length).sum : Int) = (PAGE_SIZE : Nat)) ∨
      padPage page (init ++ [sl, lp]) = .error .padOverflow := by
    rw [padPage]
    obtain ⟨r1, hr1, hm1⟩ := setOpusPackets_ok_of (init ++ [sl, lp]) lp
      (getLast?_append2 init sl lp) hlpne
    rw [hr1, except_bind_ok]
    by_cases hz1 : r1.2 = 0
    · rw [if_pos hz1]
      exact Or.inl ⟨r1.1, rfl, by rw [hz1] at hm1; omega⟩
    rw [if_neg hz1]
    simp only [getLast?_append2]
    obtain ⟨d1, hrep1, hd1ne, ⟨b01, hb01, hb013⟩, ⟨b11, hb11, hb1164⟩, _⟩ :=
      repackPacket_spec lp hsafeL hreadyL
    rw [hrep1, except_bind_ok]
    rw [setLast_eq init sl lp (chunk255 d1)]
    obtain ⟨r2, hr2, hm2⟩ := setOpusPackets_ok_of (init ++ [sl, chunk255 d1])
      (chunk255 d1) (getLast?_append2 init sl (chunk255 d1)) (chunk255_ne_nil d1 hd1ne)
    rw [hr2, except_bind_ok]
    by_cases hz2 : r2.2 = 0
    · rw [if_pos hz2]
      exact Or.inl ⟨r2.1, rfl, by rw [hz2] at hm2; omega⟩
    rw [if_neg hz2]
    rw [getSecondLast_eq init sl (chunk255 d1), except_bind_ok]
    obtain ⟨d2, hrep2, hd2ne, ⟨b02, hb02, hb023⟩, ⟨b12, hb12, hb1264⟩, _⟩ :=
      repackPacket_spec sl hsafeS hreadyS
    rw [hrep2, except_bind_ok]
    rw [setSecondLast_eq init sl (chunk255 d1) (chunk255 d2)]
    obtain ⟨r3, hr3, hm3⟩ := setOpusPackets_ok_of (init ++ [chunk255 d2, chunk255 d1])
      (chunk255 d1) (getLast?_append2 init (chunk255 d2) (chunk255 d1))
      (chunk255_ne_nil d1 hd1ne)
    rw [hr3, except_bind_ok]
    by_cases hz3 : r3.2 = 0
    · rw [if_pos hz3]
      exact Or.inl ⟨r3.1, rfl, by rw [hz3] at hm3; omega⟩
    rw [if_neg hz3]
    simp only [getLast?_append2]
    have hflat1 : (chunk255 d1).flatten = d1 := chunk255_flatten d1
    have hpad1 := padPacket_ok (chunk255 d1) b01 b11 (some r3.2)
      (by rw [hflat1, ← get?_zero_eq_head?]; exact hb01) hb013
      (by rw [hflat1]; exact hb11) hb1164
    rw [hpad1, except_bind_ok]
    rw [setLast_eq init (chunk255 d2) (chunk255 d1) _]
    have hpd1ne : padData (chunk255 d1).flatten b11 r3.2 ≠ [] := by
      rw [hflat1]
      exact padData_ne_nil d1 b11 r3.2 (get?_one_imp_len2 d1 b11 hb11)
    obtain ⟨r4, hr4, hm4⟩ := setOpusPackets_ok_of
      (init ++ [chunk255 d2, chunk255 (padData (chunk255 d1).flatten b11 r3.2)])
      (chunk255 (padData (chunk255 d1).flatten b11 r3.2))
      (getLast?_append2 _ _ _)
      (chunk255_ne_nil _ hpd1ne)
    rw [hr4, except_bind_ok]
    by_cases hz4 : r4.2 = 0
    · rw [if_pos hz4]
      exact Or.inl ⟨r4.1, rfl, by rw [hz4] at hm4; omega⟩
    rw [if_neg hz4]
    by_cases hz41 : r4.2 = 1
    · rw [if_pos hz41]
      rw [getSecondLast_eq init (chunk255 d2) _, except_bind_ok]
      have hflat2 : (chunk255 d2).flatten = d2 := chunk255_flatten d2
      have hpad2 := padPacket_ok (chunk255 d2) b02 b12 none
        (by rw [hflat2, ← get?_zero_eq_head?]; exact hb02) hb023
        (by rw [hflat2]; exact hb12) hb1264
      rw [hpad2, except_bind_ok]
      rw [setSecondLast_eq init (chunk255 d2) _ _]
      have hpd2ne : padDataNone (chunk255 d2).flatten b12 ≠ [] := by
        rw [hflat2]
        exact padDataNone_ne_nil d2 b12 (get?_one_imp_len2 d2 b12 hb12)
      obtain ⟨r5, hr5, hm5⟩ := setOpusPackets_ok_of
        (init ++ [chunk255 (padDataNone (chunk255 d2).flatten b12),
          chunk255 (padData (chunk255 d1).flatten b11 r3.2)])
        (chunk255 (padData (chunk255 d1).flatten b11 r3.2))
        (getLast?_append2 _ _ _)
        (chunk255_ne_nil _ hpd1ne)
      rw [hr5, except_bind_ok]
      by_cases hz5 : r5.2 = 0
      · rw [if_pos hz5]
        exact Or.inl ⟨r5.1, rfl, by rw [hz5] at hm5; omega⟩
      · rw [if_neg hz5]
        exact Or.inr rfl
    · rw [if_neg hz41]
      exact Or.inr rfl
  rcases key with ⟨segs, hok, hsz⟩ | herr
  · constructor
    · intro p' hp'
      rw [hok, Except.ok.injEq] at hp'
      subst hp'
      rw [serialize_length]
      rw [OggPage.getSize]
      exact_mod_cast hsz
    · intro e he
      rw [hok] at he
      exact absurd he (by simp)
  · constructor
    · intro p' hp'
      rw [herr] at hp'
      exact absurd hp' (by simp)
    · intro e he
      rw [herr, Except.error.injEq] at he
      exact he.symm

/-- The empty destination page `pad_page` receives in the tests below. -/
def c4Page : OggPage := ⟨⟨0, 0, 0, 7, 3, 0, 0⟩, []⟩

/-- C4, counterexample: a page of two packets with `S ≤ PAGE_SIZE` and an
unpadded final packet, where the final packet has framepacking 2 and its
byte at index 2 equal to 255: `pad_page` fails with the `UnsupportedOpus`
assertion inside `repack_packet` (`assert size1 < 255`), which is neither
success nor `PadOverflow`, contradicting the claim. -/
theorem C4_pad_page_counterexample :
    padPage c4Page [[[139, 1, 7]], [[130, 10, 255, 9]]] =
      .error .unsupportedOpus ∧
    PyErr.unsupportedOpus ≠ PyErr.padOverflow := by
  constructor
  · decide
  · decide

/-- The working set used for the C4 witness: one large packet, a small
code-3 packet, and a small code-0 final packet; `pad_page` pads the page
to exactly 4096 bytes in step 4. -/
def c4Packets : List (List (List Nat)) :=
  [List.replicate 14 (List.replicate 255 0) ++ [List.replicate 230 0],
    [[139, 1]], [[136, 9]]]

set_option maxRecDepth 20000 in
/-- C4 witness: the amended theorem applied to `c4Packets`; the call
succeeds and the page re-serializes to exactly `PAGE_SIZE`. -/
theorem C4_pad_page_witness :
    repackSafeB [[136, 9]] = true ∧ padReadyB [[136, 9]] = true ∧
    repackSafeB [[139, 1]] = true ∧ padReadyB [[139, 1]] = true ∧
    (padPage c4Page c4Packets).isOk = true ∧
    (padPage c4Page c4Packets).map (fun p => p.serialize.length) = .ok PAGE_SIZE := by
  have hc4 : c4Packets =
      [List.replicate 14 (List.replicate 255 0) ++ [List.replicate 230 0]] ++
        [[[139, 1]], [[136, 9]]] := by decide
  have h := C4_pad_page c4Page
    [List.replicate 14 (List.replicate 255 0) ++ [List.replicate 230 0]]
    [[139, 1]] [[136, 9]]
    (by decide) (by decide) (by decide) (by decide) (by decide)
  have hok : (padPage c4Page c4Packets).isOk = true := by decide
  refine ⟨by decide, by decide, by decide, by decide, hok, ?_⟩
  match hh : padPage c4Page c4Packets with
  | .ok p' =>
    have hlen := h.1 p' (by rw [← hc4]; exact hh)
    simp only [Except.map]
    rw [hlen]
  | .error e =>
    rw [hh] at hok
    simp [Except.isOk, Except.toBool] at hok

/-! ## Claim C9 -/

theorem set_concat_last {α : Type} (init : List α) (b x : α) :
    (init ++ [b]).set init.length x = init ++ [x] := by
  induction init with
  | nil => rfl
  | cons y ys ih =>
    simp only [List.cons_append, List.length_cons]
    rw [List.set_cons_succ, ih]

/-- Assignment `packets[-1] = x` on a list of shape `init ++ [b]`. -/
theorem setLast_concat (init : List (List (List Nat))) (b x : List (List Nat)) :
    setLast (init ++ [b]) x = init ++ [x] := by
  have h : (init ++ [b]).length - 1 = init.length := by simp
  rw [setLast, h, set_concat_last]

/-- C9, amended: for a parsed page list ending in a page whose last Opus
packet already has framepacking 3, `parse_tonie`'s fix-up fails with the
`pad_packet` padding-bit assertion whenever that bit is already set, and
succeeds with the last page re-serialized to exactly `PAGE_SIZE` when the
bit is clear, the page is short by `m ≥ 1` bytes, and the padding stays in
the simple case (`len(data) % 255 + m < 255`). -/
theorem C9_parse_tonie (front : List OggPage) (lastPage : OggPage)
    (init : List (List (List Nat))) (lp : List (List Nat)) (b0 b1 : Nat) (m : Int)
    (segsB : List (List Nat))
    (hP : getOpusPackets lastPage.segments = init ++ [lp])
    (h0 : lp.flatten.head? = some b0) (h3 : b0 &&& 3 = 3)
    (h1 : lp.flatten.get? 1 = some b1)
    (hm : m = (PAGE_SIZE : Int) -
      ((27 + init.flatten.length + (init.flatten.map List.length).sum +
        (lp.flatten.length + lp.flatten.length / 255 + 1) : Nat) : Int))
    (hsegsB : segsB =
      init.flatten ++ chunk255 (padData lp.flatten b1 m) ++
        (if (padData lp.flatten b1 m).length % 255 = 0
          then [([] : List Nat)] else [])) :
    (b1 &&& 64 ≠ 0 →
      parseToniePages (front ++ [lastPage]) = .error .unsupportedOpus) ∧
    (b1 &&& 64 = 0 → 1 ≤ m → ((lp.flatten.length % 255 : Nat) : Int) + m < 255 →
      parseToniePages (front ++ [lastPage]) =
        .ok (front ++ [updateChecksum { lastPage with segments := segsB }]) ∧
      (updateChecksum { lastPage with segments := segsB }).serialize.length =
        PAGE_SIZE) := by
  subst hsegsB
  have hdne : lp.flatten ≠ [] := by
    intro hc
    rw [hc] at h0
    exact absurd h0 (by simp)
  have hlen2 : 2 ≤ lp.flatten.length := get?_one_imp_len2 _ _ h1
  have hrepack : repackPacket lp = .ok (chunk255 lp.flatten) := by
    simp only [repackPacket, h0, if_pos h3]
  have hsetA : setLast (init ++ [lp]) (chunk255 lp.flatten) =
      init ++ [chunk255 lp.flatten] := setLast_concat _ _ _
  have hA := setOpusPackets_chunk init lp.flatten hdne
  have h0c : (chunk255 lp.flatten).flatten.head? = some b0 := by
    rw [chunk255_flatten]; exact h0
  have h1c : (chunk255 lp.flatten).flatten.get? 1 = some b1 := by
    rw [chunk255_flatten]; exact h1
  have hlastF : (front ++ [lastPage]).getLast? = some lastPage :=
    List.getLast?_concat _
  constructor
  · intro h64
    have hpadE : padPacket (chunk255 lp.flatten) (some m) =
        .error .unsupportedOpus := by
      simp only [padPacket, h0c, h1c]
      rw [if_neg (by rw [h3]; exact fun hc => hc rfl), if_pos h64]
    simp only [parseToniePages, hlastF, hP, List.getLast?_concat, hrepack,
      except_bind_ok, hsetA, hA]
    rw [← hm]
    rw [hpadE, except_bind_err]
  · intro h64 hm1 hres
    have hpad : padPacket (chunk255 lp.flatten) (some m) =
        .ok (chunk255 (padData lp.flatten b1 m)) := by
      have h := padPacket_ok (chunk255 lp.flatten) b0 b1 (some m) h0c h3 h1c h64
      rw [chunk255_flatten] at h
      exact h
    have hdne2 : padData lp.flatten b1 m ≠ [] := padData_ne_nil _ _ _ hlen2
    have hB := setOpusPackets_chunk init (padData lp.flatten b1 m) hdne2
    have hL : ((padData lp.flatten b1 m).length : Int) = lp.flatten.length + m :=
      padData_length_simple _ _ _ hlen2 hm1 hres
    have hsetB : setLast (setLast (init ++ [lp]) (chunk255 lp.flatten))
        (chunk255 (padData lp.flatten b1 m)) =
        init ++ [chunk255 (padData lp.flatten b1 m)] := by
      rw [hsetA, setLast_concat]
    have hP4 : (PAGE_SIZE : Int) = 4096 := rfl
    have hmB : (PAGE_SIZE : Int) -
        ((27 + init.flatten.length + (init.flatten.map List.length).sum +
          ((padData lp.flatten b1 m).length +
            (padData lp.flatten b1 m).length / 255 + 1) : Nat) : Int) = 0 := by
      rw [hP4]
      rw [hP4] at hm
      omega
    have hNat : 27 + init.flatten.length + (init.flatten.map List.length).sum +
        ((padData lp.flatten b1 m).length +
          (padData lp.flatten b1 m).length / 255 + 1) = 4096 := by
      omega
    refine ⟨?_, ?_⟩
    · simp only [parseToniePages, hlastF, hP, List.getLast?_concat, hrepack,
        except_bind_ok, hsetA, hA]
      rw [← hm]
      rw [hpad, except_bind_ok]
      simp only [setLast_concat, hB, except_bind_ok]
      rw [hmB]
      rw [if_neg (by intro hc; exact hc rfl)]
      simp only [List.dropLast_concat]
    · rw [serialize_length]
      simp only [OggPage.getSize, updateChecksum_segments]
      by_cases hmod : (padData lp.flatten b1 m).length % 255 = 0
      · rw [if_pos hmod]
        simp only [List.length_append, List.map_append, List.sum_append,
          chunk255_length, chunk255_sum, List.length_cons, List.length_nil,
          List.map_cons, List.map_nil, List.sum_cons, List.sum_nil]
        have hPS : PAGE_SIZE = 4096 := rfl
        rw [hPS]
        omega
      · rw [if_neg hmod]
        simp only [List.length_append, List.map_append, List.sum_append,
          chunk255_length, chunk255_sum, List.length_nil,
          List.map_nil, List.sum_nil]
        have hPS : PAGE_SIZE = 4096 := rfl
        rw [hPS]
        omega

/-- Segments of the C9 counterexample's single page: a 16-segment first
packet and a final framepacking-3 packet `[139, 1, 0]` with a clear
padding bit; the page already serializes to exactly `PAGE_SIZE`. -/
def c9CexSegs : List (List Nat) :=
  List.replicate 15 (List.replicate 255 0) ++ [List.replicate 224 0, [139, 1, 0]]

/-- The C9 counterexample page. -/
def c9CexPage : OggPage := ⟨⟨0, 0, 0, 7, 0, 0, 17⟩, c9CexSegs⟩

set_option maxRecDepth 20000 in
/-- C9, counterexample: a well-formed input whose final page's last Opus
packet does not carry the padding bit, yet `parse_tonie` fails: the page
already serializes to exactly `PAGE_SIZE`, so the fix-up pads by
`missing_bytes = 0`, which grows the packet by one byte and trips the
`assert missing_bytes == 0`. -/
theorem C9_parse_tonie_counterexample :
    pageWF c9CexPage 0 ∧
    c9CexPage.serialize.length = PAGE_SIZE ∧
    ((getOpusPackets c9CexPage.segments).getLast?.map
      fun pk => (pk.flatten.getD 0 0 &&& 3, pk.flatten.getD 1 0 &&& 64)) =
      some (3, 0) ∧
    parseTonieFrom ⟨0, [0]⟩ (([c9CexPage].map OggPage.serialize).flatten) =
      .error .assertionFailed := by
  have hr : parseOgg (([c9CexPage].map OggPage.serialize).flatten) =
      .ok [c9CexPage] := by
    refine parseOggAux_roundtrip [c9CexPage] 0 ?_
    intro i hi
    have hi0 : i = 0 := by
      simp only [List.length_cons, List.length_nil] at hi
      omega
    subst hi0
    exact (by decide : pageWF c9CexPage 0)
  have hpt : parseToniePages [c9CexPage] = .error .assertionFailed := by decide
  refine ⟨by decide, ?_, by decide, ?_⟩
  · rw [serialize_length]
    simp only [OggPage.getSize, c9CexPage, c9CexSegs, List.length_append,
      List.length_replicate, List.map_append, List.map_replicate,
      List.sum_append, List.sum_replicate, List.map_cons, List.map_nil,
      List.sum_cons, List.sum_nil, List.length_cons, List.length_nil,
      smul_eq_mul]
    rfl
  · rw [parseTonieFrom, hr, except_bind_ok, hpt, except_bind_err]

/-- Segments of the C9 witness page: 3996 serialized bytes, ending in the
unpadded framepacking-3 packet `[139, 1]`, so the fix-up pads by 100
bytes in the simple case. -/
def c9WitSegs : List (List Nat) :=
  ([139, 1] ++ List.replicate 253 0) :: List.replicate 14 (List.replicate 255 0) ++
    [List.replicate 125 0, [139, 1]]

/-- The C9 witness page. -/
def c9WitPage : OggPage := ⟨⟨0, 0, 96000, 7, 0, 0, 17⟩, c9WitSegs⟩

/-- The first (untouched) packet of the C9 witness page. -/
def c9WitInit : List (List Nat) :=
  ([139, 1] ++ List.replicate 253 0) :: List.replicate 14 (List.replicate 255 0) ++
    [List.replicate 125 0]

/-- The padded segment list `parse_tonie` leaves on the C9 witness page. -/
def c9WitSegsB : List (List Nat) :=
  c9WitInit ++ [[139, 65, 99] ++ List.replicate 99 0]

set_option maxRecDepth 20000 in
/-- C9 witness: the amended theorem applied to the witness page; the
fix-up succeeds and the resulting last page serializes to exactly
`PAGE_SIZE`. -/
theorem C9_parse_tonie_witness :
    (1 : Nat) &&& 64 = 0 ∧ (1 : Int) ≤ 100 ∧
    ((((([139, 1] : List Nat)).length % 255 : Nat) : Int) + 100 < 255) ∧
    (parseToniePages [c9WitPage]).isOk = true ∧
    (parseToniePages [c9WitPage]).map
      (fun ps => ps.getLast?.map fun p => p.serialize.length) =
      .ok (some PAGE_SIZE) := by
  have h := C9_parse_tonie [] c9WitPage [c9WitInit] [[139, 1]] 139 1 100 c9WitSegsB
    (by decide) (by decide) (by decide) (by decide) (by decide) (by decide)
  have h2 := h.2 (by decide) (by decide) (by decide)
  have hok : parseToniePages [c9WitPage] =
      .ok ([] ++ [updateChecksum { c9WitPage with segments := c9WitSegsB }]) := by
    have := h2.1
    simpa using this
  refine ⟨by decide, by decide, by decide, ?_, ?_⟩
  · rw [hok]
    rfl
  · rw [hok]
    simp only [Except.map, List.nil_append, List.getLast?_singleton,
      Option.map_some']
    rw [h2.2]

/-! ## Claim C7 -/

/-- Pre-existing audio for the C7 run: three pages, the last with
`page_no = 2` and `granule_position = 1000`. -/
def c7Audio : TonieAudio :=
  ⟨⟨5, [2]⟩,
    [⟨⟨0, 0, 0, 7, 0, 0, 1⟩, [[1]]⟩,
      ⟨⟨0, 0, 0, 7, 1, 0, 1⟩, [[2]]⟩,
      ⟨⟨0, 0, 1000, 7, 2, 0, 1⟩, [[139, 1, 0]]⟩]⟩

/-- Source pages for the C7 run: two header pages plus one audio page
holding three packets sized so that the third one triggers a flush of the
first two at exactly `PAGE_SIZE` bytes. -/
def c7Src : List OggPage :=
  [⟨⟨0, 0, 0, 9, 0, 0, 0⟩, []⟩,
    ⟨⟨0, 0, 0, 9, 1, 0, 0⟩, []⟩,
    ⟨⟨0, 0, 0, 9, 2, 0, 18⟩,
      ([139, 1] ++ List.replicate 253 0) :: List.replicate 14 (List.replicate 255 0) ++
        [List.replicate 225 0, [139, 1], [139, 1, 7]]⟩]

set_option maxRecDepth 20000 in
/-- C7, failing run: `append_chapter` constructs each flushed page as
`OggPage(last_page.info)`, which shares the `info` list with the source's
last page; the flush then writes the new page number, granule position,
segment count and checksum into that shared list, so the pre-existing
page 2 of the source audio comes back with `page_no = 3` and
`granule_position = 1480` instead of its original `(2, 1000)` — a
mutation of a pre-existing page. -/
theorem C7_append_chapter_mutation :
    ((c7Audio.pages.get? 2).map fun p => (p.info.pageNo, p.info.granulePos)) =
      some (2, 1000) ∧
    (appendChapterPages c7Audio c7Src).map
        (fun r => (r.1.pages.get? 2).map fun p =>
          (p.info.pageNo, p.info.granulePos, p.segments)) =
      .ok (some (3, 1480, [[139, 1, 0]])) := by
  constructor
  · decide
  · decide

/-! ## The emission plan of `compose`

The chapter loop of `compose` first computes each chapter's (possibly
prefix-extended) page-number list and then emits it; the emitted pages
depend only on the concatenated `(page_num, is_last)` sequence.  The
plan-level view below makes the per-chapter `is_last` flags explicit. -/

/-- The `(page_num, is_last)` pairs of a whole `compose` run, chapter by
chapter. -/
def composePlanGo (ta : TonieAudio) :
    List Nat → Bool → Except PyErr (List (Nat × Bool))
  | [], _ => .ok []
  | c :: rest, first => do
    let nums ← chapterNums ta c first
    let restP ← composePlanGo ta rest false
    .ok (planPairs nums ++ restP)

/-- The full plan of `compose(tonie_audio, out_file, chapter_nums)`. -/
def composePlan (ta : TonieAudio) (chapterNumList : List Nat) :
    Except PyErr (List (Nat × Bool)) :=
  composePlanGo ta chapterNumList true

theorem emitList_append (ta : TonieAudio) (l1 l2 : List (Nat × Bool)) :
    ∀ st, emitList ta (l1 ++ l2) st =
      (emitList ta l1 st) >>= fun r1 =>
        (emitList ta l2 r1.2) >>= fun r2 => .ok (r1.1 ++ r2.1, r2.2) := by
  induction l1 with
  | nil =>
    intro st
    simp only [List.nil_append, emitList, except_bind_ok]
    match h2 : emitList ta l2 st with
    | .error e => rfl
    | .ok r2 => rfl
  | cons pr l1 ih =>
    intro st
    simp only [List.cons_append, emitList, List.append_eq]
    match h1 : emitOne ta pr.1 pr.2 st with
    | .error e => rfl
    | .ok r1 =>
      simp only [except_bind_ok, ih r1.2]
      match hl1 : emitList ta l1 r1.2 with
      | .error e => rfl
      | .ok rA =>
        simp only [except_bind_ok]
        match hl2 : emitList ta l2 rA.2 with
        | .error e => rfl
        | .ok rB => simp [except_bind_ok]

/-- When the plan exists, the chapter loop of `compose` is exactly the
emission loop over the concatenated plan. -/
theorem composeGo_plan (ta : TonieAudio) :
    ∀ (cs : List Nat) (first : Bool) (plan : List (Nat × Bool)) (st : EmitState),
      composePlanGo ta cs first = .ok plan →
      composeGo ta cs first st = emitList ta plan st := by
  intro cs
  induction cs with
  | nil =>
    intro first plan st h
    simp only [composePlanGo] at h
    cases h
    rfl
  | cons c rest ih =>
    intro first plan st h
    simp only [composePlanGo] at h
    match hn : chapterNums ta c first with
    | .error e =>
      rw [hn] at h
      exact absurd h (by simp [except_bind_err])
    | .ok nums =>
      rw [hn, except_bind_ok] at h
      match hrp : composePlanGo ta rest false with
      | .error e =>
        rw [hrp] at h
        exact absurd h (by simp [except_bind_err])
      | .ok restP =>
        rw [hrp, except_bind_ok] at h
        cases h
        simp only [composeGo, composeChapter, hn, except_bind_ok,
          emitList_append]
        match he : emitList ta (planPairs nums) st with
        | .error e => rfl
        | .ok r1 =>
          simp only [except_bind_ok]
          rw [ih false restP r1.2 hrp]

theorem serializeWithPage_fields (p : OggPage) (isLast : Bool) (g n : Nat) :
    (serializeWithPage p isLast g n).info.pageType = (if isLast then 4 else 0) ∧
    (serializeWithPage p isLast g n).info.granulePos = g ∧
    (serializeWithPage p isLast g n).info.pageNo = n ∧
    (serializeWithPage p isLast g n).segments = p.segments := by
  refine ⟨rfl, rfl, rfl, rfl⟩
/-- Shape of one emission run: one output page per plan entry; entries
with `page_num < 2` are the source pages verbatim, entries with
`page_num ≥ 2` go through `serialize_with` with the entry's `is_last`
flag and the running output page number. -/
theorem emitList_shape (ta : TonieAudio) :
    ∀ (pl : List (Nat × Bool)) (st : EmitState) (r : List OggPage × EmitState),
      emitList ta pl st = .ok r →
      r.1.length = pl.length ∧
      ∀ i pn b, pl.get? i = some (pn, b) →
        (pn < 2 → r.1.get? i = ta.pages.get? pn) ∧
        (2 ≤ pn → ∃ p g, ta.pages.get? pn = some p ∧
          r.1.get? i = some (serializeWithPage p b g (st.next + i))) := by
  intro pl
  induction pl with
  | nil =>
    intro st r h
    simp only [emitList] at h
    cases h
    exact ⟨rfl, fun i pn b hi => absurd hi (by simp)⟩
  | cons pr rest ih =>
    intro st r h
    simp only [emitList] at h
    match h1 : emitOne ta pr.1 pr.2 st with
    | .error e =>
      rw [h1, except_bind_err] at h
      exact absurd h (by simp)
    | .ok r1 =>
      rw [h1, except_bind_ok] at h
      match h2 : emitList ta rest r1.2 with
      | .error e =>
        rw [h2, except_bind_err] at h
        exact absurd h (by simp)
      | .ok r2 =>
        rw [h2, except_bind_ok] at h
        cases h
        have hone : (ta.pages.get? pr.1 = some r1.1 ∧ pr.1 < 2 ∧
            r1.2 = { st with next := st.next + 1 }) ∨
            (∃ p g, ta.pages.get? pr.1 = some p ∧ 2 ≤ pr.1 ∧
              r1.1 = serializeWithPage p pr.2 g st.next ∧ r1.2.next = st.next + 1) := by
          simp only [emitOne] at h1
          match hp : ta.pages.get? pr.1 with
          | none =>
            simp only [hp] at h1
            exact absurd h1 (by simp)
          | some p =>
            simp only [hp] at h1
            by_cases hlt : pr.1 < 2
            · rw [if_pos hlt] at h1
              cases h1
              exact Or.inl ⟨rfl, hlt, rfl⟩
            · rw [if_neg hlt] at h1
              match hd : getDuration p with
              | .error e =>
                rw [hd, except_bind_err] at h1
                exact absurd h1 (by simp)
              | .ok d =>
                rw [hd, except_bind_ok] at h1
                cases h1
                exact Or.inr ⟨p, st.granule + d, rfl, by omega, rfl, rfl⟩
        have ihr := ih r1.2 r2 h2
        have hnext : r1.2.next = st.next + 1 := by
          rcases hone with ⟨_, _, hst⟩ | ⟨p, g, _, _, _, hn⟩
          · rw [hst]
          · exact hn
        refine ⟨by simp [ihr.1], ?_⟩
        intro i pn b hi
        match i with
        | 0 =>
          simp only [List.get?_cons_zero, Option.some.injEq] at hi
          have hpn : pr.1 = pn := by rw [hi]
          have hb : pr.2 = b := by rw [hi]
          constructor
          · intro hlt
            rcases hone with ⟨hp, _, _⟩ | ⟨p, g, _, h2le, _, _⟩
            · rw [List.get?_cons_zero, ← hpn, hp]
            · rw [hpn] at h2le; omega
          · intro h2le
            rcases hone with ⟨_, hlt, _⟩ | ⟨p, g, hp, _, he, _⟩
            · rw [hpn] at hlt; omega
            · refine ⟨p, g, by rw [← hpn]; exact hp, ?_⟩
              rw [List.get?_cons_zero, he, hb]
              simp
        | j + 1 =>
          simp only [List.get?_cons_succ] at hi
          have := (ihr.2 j pn b hi)
          refine ⟨fun hlt => ?_, fun h2le => ?_⟩
          · simp only [List.get?_cons_succ]
            exact this.1 hlt
          · obtain ⟨p, g, hp, hps⟩ := this.2 h2le
            refine ⟨p, g, hp, ?_⟩
            simp only [List.get?_cons_succ]
            rw [hps, hnext]
            congr 2
            omega

/-- A successful `compose` chapter loop factors through its plan. -/
theorem composeGo_ok_plan (ta : TonieAudio) :
    ∀ (cs : List Nat) (first : Bool) (st : EmitState) (r : List OggPage × EmitState),
      composeGo ta cs first st = .ok r →
      ∃ plan, composePlanGo ta cs first = .ok plan ∧ emitList ta plan st = .ok r := by
  intro cs
  induction cs with
  | nil =>
    intro first st r h
    simp only [composeGo] at h
    cases h
    exact ⟨[], rfl, rfl⟩
  | cons c rest ih =>
    intro first st r h
    simp only [composeGo] at h
    match h1 : composeChapter ta c first st with
    | .error e =>
      rw [h1, except_bind_err] at h
      exact absurd h (by simp)
    | .ok r1 =>
      rw [h1, except_bind_ok] at h
      match h2 : composeGo ta rest false r1.2 with
      | .error e =>
        rw [h2, except_bind_err] at h
        exact absurd h (by simp)
      | .ok r2 =>
        rw [h2, except_bind_ok] at h
        cases h
        simp only [composeChapter] at h1
        match hn : chapterNums ta c first with
        | .error e =>
          rw [hn, except_bind_err] at h1
          exact absurd h1 (by simp)
        | .ok nums =>
          rw [hn, except_bind_ok] at h1
          obtain ⟨restPlan, hrp, hre⟩ := ih false r1.2 r2 h2
          refine ⟨planPairs nums ++ restPlan, ?_, ?_⟩
          · simp only [composePlanGo, hn, except_bind_ok, hrp, except_bind_ok]
          · rw [emitList_append, h1, except_bind_ok, hre, except_bind_ok]
/-! ## Claim C2 -/

/-- C2, amended: the end-of-stream bit is set per chapter, not once per
run.  For every successful `compose` run, the emitted pages correspond
one-to-one to the plan entries; every entry with `page_num ≥ 2` is
emitted with `page_type = 4` exactly when its `is_last` flag holds —
which `planPairs` sets for every entry equal to its own chapter's final
page number — and entries with `page_num < 2` are emitted verbatim.  A
run over several chapters therefore emits one `page_type = 4` page per
chapter, not exactly one for the whole stream. -/
theorem C2_eos_bit (ta : TonieAudio) (cs : List Nat) (plan : List (Nat × Bool))
    (ps : List OggPage) (stf : EmitState)
    (hplan : composePlan ta cs = .ok plan)
    (hrun : emitList ta plan ⟨0, 0⟩ = .ok (ps, stf)) :
    composeStruct ta cs = .ok ps ∧
    ps.length = plan.length ∧
    (∀ i pn b, plan.get? i = some (pn, b) → 2 ≤ pn →
      ((ps.get? i).map fun p => p.info.pageType) = some (if b then 4 else 0)) ∧
    (∀ i pn b, plan.get? i = some (pn, b) → pn < 2 →
      ps.get? i = ta.pages.get? pn) := by
  have hgo := composeGo_plan ta cs true plan ⟨0, 0⟩ hplan
  have hcs : composeStruct ta cs = .ok ps := by
    rw [composeStruct, hgo, hrun]
    rfl
  have hsh := emitList_shape ta plan ⟨0, 0⟩ (ps, stf) hrun
  refine ⟨hcs, hsh.1, ?_, fun i pn b hi hlt => (hsh.2 i pn b hi).1 hlt⟩
  intro i pn b hi h2
  obtain ⟨p, g, hp, hps⟩ := (hsh.2 i pn b hi).2 h2
  rw [hps]
  simp only [Option.map_some']
  rw [(serializeWithPage_fields p b g _).1]

/-- A four-page audio with two one-page chapters, used for the C2 run. -/
def c2Ta : TonieAudio :=
  ⟨⟨5, [2, 3]⟩,
    [⟨⟨0, 0, 0, 7, 0, 0, 1⟩, [[1]]⟩,
      ⟨⟨0, 0, 0, 7, 1, 0, 1⟩, [[2]]⟩,
      ⟨⟨0, 0, 777, 7, 2, 0, 1⟩, [[139, 1]]⟩,
      ⟨⟨0, 4, 999, 7, 3, 0, 1⟩, [[139, 1]]⟩]⟩

set_option maxRecDepth 20000 in
/-- C2, counterexample: composing the two chapters of `c2Ta` emits two
pages and both carry the end-of-stream bit (`page_type = 4`), because
each chapter's final page is flagged `is_last`; the claim predicts the
bit on exactly one page of the stream. -/
theorem C2_eos_bit_counterexample :
    (composeStruct c2Ta [0, 1]).map (fun ps => ps.map fun p => p.info.pageType) =
      .ok [4, 4] := by
  decide

/-- The two pages the C2 run emits. -/
def c2WitPages : List OggPage :=
  [serializeWithPage ⟨⟨0, 0, 777, 7, 2, 0, 1⟩, [[139, 1]]⟩ true 240 0,
    serializeWithPage ⟨⟨0, 4, 999, 7, 3, 0, 1⟩, [[139, 1]]⟩ true 480 1]

set_option maxRecDepth 20000 in
/-- C2 witness: the amended theorem applied to the `c2Ta` run; both
emitted pages are audio pages flagged `is_last` and both come out with
`page_type = 4`. -/
theorem C2_eos_bit_witness :
    composePlan c2Ta [0, 1] = .ok [(2, true), (3, true)] ∧
    ((c2WitPages.get? 0).map fun p => p.info.pageType) = some 4 ∧
    ((c2WitPages.get? 1).map fun p => p.info.pageType) = some 4 := by
  have hplan : composePlan c2Ta [0, 1] = .ok [(2, true), (3, true)] := by decide
  have hrun : emitList c2Ta [(2, true), (3, true)] ⟨0, 0⟩ =
      .ok (c2WitPages, ⟨480, 2⟩) := by decide
  have h := C2_eos_bit c2Ta [0, 1] [(2, true), (3, true)] c2WitPages ⟨480, 2⟩
    hplan hrun
  have h0 := h.2.2.1 0 2 true rfl (by omega)
  have h1 := h.2.2.1 1 3 true rfl (by omega)
  rw [if_pos rfl] at h0 h1
  exact ⟨hplan, h0, h1⟩

/-! ## Claim C3 -/

theorem get?_append_left {α : Type} (l1 l2 : List α) (n : Nat) (h : n < l1.length) :
    (l1 ++ l2).get? n = l1.get? n := by
  rw [List.get?_eq_getElem?, List.get?_eq_getElem?, List.getElem?_append_left h]

theorem bind_ok_destruct {α β : Type} (E : Except PyErr α) (f : α → Except PyErr β)
    (r : β) (h : (E >>= f) = .ok r) : ∃ a, E = .ok a ∧ f a = .ok r := by
  match E with
  | .error e =>
    rw [except_bind_err] at h
    exact absurd h (by simp)
  | .ok a =>
    rw [except_bind_ok] at h
    exact ⟨a, rfl, h⟩

/-- Stepping the emission loop over a plan that begins with the
`[0, 1, 2]` preamble: pages 0 and 1 come out verbatim and page 2 comes
out relabelled through `serialize_with` with the accumulated granule
position and output page number 2. -/
theorem emitList_preamble (ta : TonieAudio) (f0 f1 f2 : Bool)
    (tail : List (Nat × Bool)) (st : EmitState) (r : List OggPage × EmitState)
    (h : emitList ta ((0, f0) :: (1, f1) :: (2, f2) :: tail) st = .ok r) :
    ∃ p0 p1 p2 d,
      ta.pages.get? 0 = some p0 ∧ r.1.get? 0 = some p0 ∧
      ta.pages.get? 1 = some p1 ∧ r.1.get? 1 = some p1 ∧
      ta.pages.get? 2 = some p2 ∧ getDuration p2 = .ok d ∧
      r.1.get? 2 = some (serializeWithPage p2 f2 (st.granule + d) (st.next + 1 + 1)) := by
  simp only [emitList] at h
  obtain ⟨r1, h1, h⟩ := bind_ok_destruct _ _ _ h
  obtain ⟨rA, hA, h⟩ := bind_ok_destruct _ _ _ h
  simp only [Except.ok.injEq] at h
  subst h
  obtain ⟨rB, hB, hA⟩ := bind_ok_destruct _ _ _ hA
  obtain ⟨rC, hC, hA⟩ := bind_ok_destruct _ _ _ hA
  simp only [Except.ok.injEq] at hA
  subst hA
  obtain ⟨rD, hD, hC⟩ := bind_ok_destruct _ _ _ hC
  obtain ⟨rE, hE, hC⟩ := bind_ok_destruct _ _ _ hC
  simp only [Except.ok.injEq] at hC
  subst hC
  match hp0 : ta.pages.get? 0 with
  | none =>
    simp only [emitOne, hp0] at h1
    exact absurd h1 (by simp)
  | some p0 =>
    simp only [emitOne, hp0] at h1
    rw [if_pos (by omega)] at h1
    cases h1
    match hp1 : ta.pages.get? 1 with
    | none =>
      simp only [emitOne, hp1] at hB
      exact absurd hB (by simp)
    | some p1 =>
      simp only [emitOne, hp1] at hB
      rw [if_pos (by omega)] at hB
      cases hB
      match hp2 : ta.pages.get? 2 with
      | none =>
        simp only [emitOne, hp2] at hD
        exact absurd hD (by simp)
      | some p2 =>
        simp only [emitOne, hp2] at hD
        rw [if_neg (by omega)] at hD
        obtain ⟨d, hd, hD⟩ := bind_ok_destruct _ _ _ hD
        simp only [Except.ok.injEq] at hD
        subst hD
        refine ⟨p0, p1, p2, d, rfl, rfl, rfl, rfl, rfl, hd, ?_⟩
        simp

/-- C3, amended: when the first chapter of the run is a chapter number
other than 0, the first two emitted pages are source pages 0 and 1
verbatim, but the third emitted page is NOT source page 2 unchanged: it
is page 2 re-emitted through `serialize_with`, with `page_type` forced
to 0 or 4 (4 exactly when 2 is the last entry of the extended page list),
`granule_position` replaced by page 2's own duration, `page_no` set to 2,
and the checksum recomputed. -/
theorem C3_first_chapter_preamble (ta : TonieAudio) (c : Nat) (rest : List Nat)
    (nums : List Nat) (lastN : Nat) (ps : List OggPage) (p2 : OggPage)
    (hc : 0 < c)
    (hnums : getChapterPageNums ta c = .ok nums)
    (hlastN : (([0, 1, 2] ++ nums) : List Nat).getLast? = some lastN)
    (hrun : composeStruct ta (c :: rest) = .ok ps)
    (hp2 : ta.pages.get? 2 = some p2) :
    ps.get? 0 = ta.pages.get? 0 ∧ ps.get? 1 = ta.pages.get? 1 ∧
    ∃ d, getDuration p2 = .ok d ∧
      ps.get? 2 = some (serializeWithPage p2 (2 == lastN) d 2) := by
  have hch : chapterNums ta c true = .ok ([0, 1, 2] ++ nums) := by
    rw [chapterNums, hnums, except_bind_ok, if_pos (And.intro rfl hc)]
  have hlastN' : (0 :: 1 :: 2 :: nums).getLast? = some lastN := by
    simpa using hlastN
  have hplanP : planPairs ([0, 1, 2] ++ nums) =
      (0, 0 == lastN) :: (1, 1 == lastN) :: (2, 2 == lastN) ::
        nums.map (fun pn => (pn, pn == lastN)) := by
    simp only [planPairs, List.cons_append, List.nil_append, hlastN',
      List.map_cons]
  rw [composeStruct] at hrun
  match hg : composeGo ta (c :: rest) true ⟨0, 0⟩ with
  | .error e =>
    rw [hg] at hrun
    exact absurd hrun (by simp [Except.map])
  | .ok r =>
    rw [hg] at hrun
    simp only [Except.map] at hrun
    injection hrun with hps
    simp only [composeGo, composeChapter, hch, except_bind_ok, hplanP] at hg
    obtain ⟨r1, h1, hg⟩ := bind_ok_destruct _ _ _ hg
    obtain ⟨r2, h2, hg⟩ := bind_ok_destruct _ _ _ hg
    simp only [Except.ok.injEq] at hg
    obtain ⟨p0, p1, p2', d, hp0, hr0, hp1, hr1, hp2', hd, hr2⟩ :=
      emitList_preamble ta _ _ _ _ ⟨0, 0⟩ r1 h1
    have hp2e : p2 = p2' := by
      rw [hp2] at hp2'
      injection hp2'
    subst hp2e
    cases hg
    simp only at hps
    subst hps
    have h2lt : 2 < r1.1.length := by
      by_contra hcon
      push_neg at hcon
      rw [List.get?_eq_getElem?, List.getElem?_eq_none (by omega)] at hr2
      exact absurd hr2 (by simp)
    refine ⟨?_, ?_, d, hd, ?_⟩
    · rw [get?_append_left _ _ _ (by omega), hr0, hp0]
    · rw [get?_append_left _ _ _ (by omega), hr1, hp1]
    · rw [get?_append_left _ _ _ (by omega), hr2]
      simp
/-- Source pages for the C3 run. -/
def c3p0 : OggPage := ⟨⟨0, 0, 0, 7, 0, 0, 1⟩, [[1]]⟩

/-- Source page 1 for the C3 run. -/
def c3p1 : OggPage := ⟨⟨0, 0, 0, 7, 1, 0, 1⟩, [[2]]⟩

/-- Source page 2 for the C3 run: granule position 777 in the source. -/
def c3p2 : OggPage := ⟨⟨0, 0, 777, 7, 2, 0, 1⟩, [[139, 1]]⟩

/-- Source page 3 for the C3 run. -/
def c3p3 : OggPage := ⟨⟨0, 4, 999, 7, 3, 0, 1⟩, [[139, 1]]⟩

/-- A four-page audio with two one-page chapters, used for the C3 run. -/
def c3Ta : TonieAudio := ⟨⟨5, [2, 3]⟩, [c3p0, c3p1, c3p2, c3p3]⟩

set_option maxRecDepth 20000 in
/-- C3, counterexample: composing `c3Ta` starting at chapter 1, the third
emitted page is not byte-identical to source page 2: its granule position
is the recomputed 240 (page 2's own duration) instead of the source's
777, and its bytes differ from `serialize(page 2)`. -/
theorem C3_first_chapter_preamble_counterexample :
    (composeStruct c3Ta [1]).map
        (fun ps => (ps.get? 2).map fun p => p.info.granulePos) =
      .ok (some 240) ∧
    ((c3Ta.pages.get? 2).map fun p => p.info.granulePos) = some 777 ∧
    (composeStruct c3Ta [1]).map
        (fun ps => (ps.get? 2).map fun p => p.serialize) ≠
      .ok ((c3Ta.pages.get? 2).map fun p => p.serialize) := by
  refine ⟨by decide, by decide, by decide⟩

/-- The four pages the C3 run emits. -/
def c3WitPages : List OggPage :=
  [c3p0, c3p1, serializeWithPage c3p2 false 240 2, serializeWithPage c3p3 true 480 3]

set_option maxRecDepth 20000 in
/-- C3 witness: the amended theorem applied to the `c3Ta` run starting at
chapter 1; pages 0 and 1 are emitted verbatim and the third emitted page
is page 2 relabelled through `serialize_with`. -/
theorem C3_first_chapter_preamble_witness :
    (0 : Nat) < 1 ∧ getChapterPageNums c3Ta 1 = .ok [3] ∧
    (([0, 1, 2] ++ [3] : List Nat)).getLast? = some 3 ∧
    composeStruct c3Ta [1] = .ok c3WitPages ∧
    c3WitPages.get? 0 = c3Ta.pages.get? 0 ∧
    c3WitPages.get? 1 = c3Ta.pages.get? 1 ∧
    c3WitPages.get? 2 = some (serializeWithPage c3p2 (2 == 3) 240 2) := by
  have hrun : composeStruct c3Ta [1] = .ok c3WitPages := by decide
  have h := C3_first_chapter_preamble c3Ta 1 [] [3] 3 c3WitPages c3p2
    (by omega) (by decide) (by decide) hrun (by decide)
  obtain ⟨h0, h1, d, hd, h2⟩ := h
  have hd' : getDuration c3p2 = .ok 240 := by decide
  rw [hd'] at hd
  injection hd with hdd
  subst hdd
  exact ⟨by omega, by decide, by decide, hrun, h0, h1, h2⟩

/-! ## Claim C6 -/

theorem head?_eq_get?_zero {α : Type} (l : List α) : l.head? = l.get? 0 := by
  cases l <;> rfl

theorem getDuration_serializeWithPage (p : OggPage) (b : Bool) (g n : Nat) :
    getDuration (serializeWithPage p b g n) = getDuration p := by
  rw [getDuration, getDuration, (serializeWithPage_fields p b g n).2.2.2]

/-- Granule bookkeeping of the emission loop on a plan of audio pages
(`page_num ≥ 2` throughout): the first emitted page's granule position is
the starting granule plus its own duration, and every later page's
granule position is the previous page's plus its own duration. -/
theorem emitList_granule (ta : TonieAudio) :
    ∀ (pl : List (Nat × Bool)) (st : EmitState) (r : List OggPage × EmitState),
      emitList ta pl st = .ok r →
      (∀ pr ∈ pl, 2 ≤ pr.1) →
      (∀ p, r.1.head? = some p →
        ∃ d, getDuration p = .ok d ∧ p.info.granulePos = st.granule + d) ∧
      (∀ i p q, r.1.get? i = some p → r.1.get? (i + 1) = some q →
        ∃ d, getDuration q = .ok d ∧
          q.info.granulePos = p.info.granulePos + d) := by
  intro pl
  induction pl with
  | nil =>
    intro st r h _
    simp only [emitList] at h
    cases h
    exact ⟨fun p hp => absurd hp (by simp), fun i p q hp hq => absurd hp (by simp)⟩
  | cons pr rest ih =>
    intro st r h haudio
    simp only [emitList] at h
    obtain ⟨r1, h1, h⟩ := bind_ok_destruct _ _ _ h
    obtain ⟨r2, h2, h⟩ := bind_ok_destruct _ _ _ h
    simp only [Except.ok.injEq] at h
    subst h
    have hpn : 2 ≤ pr.1 := haudio pr (by simp)
    match hp : ta.pages.get? pr.1 with
    | none =>
      simp only [emitOne, hp] at h1
      exact absurd h1 (by simp)
    | some p =>
      simp only [emitOne, hp] at h1
      rw [if_neg (by omega)] at h1
      obtain ⟨d, hd, h1⟩ := bind_ok_destruct _ _ _ h1
      simp only [Except.ok.injEq] at h1
      subst h1
      have ihr := ih ⟨st.granule + d, st.next + 1⟩ r2 h2
        (fun q hq => haudio q (by simp [hq]))
      have hfields := serializeWithPage_fields p pr.2 (st.granule + d) st.next
      constructor
      · intro e he
        simp only [List.head?_cons, Option.some.injEq] at he
        subst he
        exact ⟨d, by rw [getDuration_serializeWithPage]; exact hd, hfields.2.1⟩
      · intro i e q he hq
        match i with
        | 0 =>
          simp only [List.get?_cons_zero, Option.some.injEq] at he
          subst he
          simp only [List.get?_cons_succ] at hq
          have hq' : r2.1.head? = some q := by
            rw [head?_eq_get?_zero]
            exact hq
          obtain ⟨d', hd', hg'⟩ := ihr.1 q hq'
          refine ⟨d', hd', ?_⟩
          rw [hg', hfields.2.1]
        | j + 1 =>
          simp only [List.get?_cons_succ] at he hq
          exact ihr.2 j e q he hq

theorem mem_of_get? {α : Type} (l : List α) (n : Nat) (a : α)
    (h : l.get? n = some a) : a ∈ l := by
  rw [List.get?_eq_getElem?] at h
  obtain ⟨hlt, he⟩ := List.getElem?_eq_some_iff.mp h
  rw [← he]
  exact List.getElem_mem hlt

theorem get?_append_right {α : Type} (l1 l2 : List α) (n : Nat)
    (h : l1.length ≤ n) : (l1 ++ l2).get? n = l2.get? (n - l1.length) := by
  rw [List.get?_eq_getElem?, List.get?_eq_getElem?, List.getElem?_append_right h]

/-- The emission loop on a header prefix (`page_num < 2` throughout,
source pages carrying granule position 0): one verbatim page per entry,
granule-position-0 output pages, and an unchanged granule accumulator. -/
theorem emitList_headers (ta : TonieAudio) :
    ∀ (pl : List (Nat × Bool)) (st : EmitState) (r : List OggPage × EmitState),
      emitList ta pl st = .ok r →
      (∀ pr ∈ pl, pr.1 < 2) →
      (∀ pr ∈ pl, ∀ p, ta.pages.get? pr.1 = some p → p.info.granulePos = 0) →
      r.1.length = pl.length ∧ r.2.granule = st.granule ∧
      ∀ q ∈ r.1, q.info.granulePos = 0 := by
  intro pl
  induction pl with
  | nil =>
    intro st r h _ _
    simp only [emitList] at h
    cases h
    exact ⟨rfl, rfl, fun q hq => absurd hq (by simp)⟩
  | cons pr rest ih =>
    intro st r h hlt h0
    simp only [emitList] at h
    obtain ⟨r1, h1, h⟩ := bind_ok_destruct _ _ _ h
    obtain ⟨r2, h2, h⟩ := bind_ok_destruct _ _ _ h
    simp only [Except.ok.injEq] at h
    subst h
    have hpn : pr.1 < 2 := hlt pr (by simp)
    match hp : ta.pages.get? pr.1 with
    | none =>
      simp only [emitOne, hp] at h1
      exact absurd h1 (by simp)
    | some p =>
      simp only [emitOne, hp] at h1
      rw [if_pos hpn] at h1
      cases h1
      have ihr := ih { st with next := st.next + 1 } r2 h2
        (fun q hq => hlt q (by simp [hq]))
        (fun q hq => h0 q (by simp [hq]))
      refine ⟨by simp [ihr.1], ihr.2.1, ?_⟩
      intro q hq
      simp only [List.mem_cons] at hq
      rcases hq with hq | hq
      · subst hq
        exact h0 pr (by simp) _ hp
      · exact ihr.2.2 q hq

/-- Pairwise monotonicity of the granule positions follows from adjacent
monotonicity. -/
theorem granule_mono_of_adjacent (ps : List OggPage)
    (hadj : ∀ i p q, ps.get? i = some p → ps.get? (i + 1) = some q →
      p.info.granulePos ≤ q.info.granulePos) :
    ∀ j i p q, i ≤ j → ps.get? i = some p → ps.get? j = some q →
      p.info.granulePos ≤ q.info.granulePos := by
  intro j
  induction j with
  | zero =>
    intro i p q hij hp hq
    have hi0 : i = 0 := by omega
    subst hi0
    rw [hp] at hq
    injection hq with hh
    rw [hh]
  | succ j ihj =>
    intro i p q hij hp hq
    by_cases hie : i = j + 1
    · subst hie
      rw [hp] at hq
      injection hq with hh
      rw [hh]
    · have hij' : i ≤ j := by omega
      have hjlt : j + 1 < ps.length := by
        by_contra hcon
        push_neg at hcon
        rw [List.get?_eq_getElem?, List.getElem?_eq_none (by omega)] at hq
        exact absurd hq (by simp)
      match hw : ps.get? j with
      | none =>
        rw [List.get?_eq_getElem?, List.getElem?_eq_none_iff] at hw
        omega
      | some w =>
        exact le_trans (ihj i p w hij' hp hw) (hadj j w q hw hq)

/-- C6, amended: for every successful `compose` run whose plan is a
verbatim header prefix (`page_num < 2`, source pages carrying granule
position 0, as Ogg header pages do) followed by audio pages
(`page_num ≥ 2`), the emitted granule positions are monotonically
non-decreasing across ALL emitted pages — header pages included — and
every emitted page whose plan entry is an audio page has granule
position equal to the previous emitted page's granule position plus its
own duration as computed by `get_duration` (the run's first page, when
audio, carries exactly its own duration).  Without the granule-0 header
hypothesis this fails: the accumulator restarts at 0 at the first audio
page regardless of what the verbatim header pages carry. -/
theorem C6_granule (ta : TonieAudio) (cs : List Nat)
    (plan pre post : List (Nat × Bool)) (ps : List OggPage) (stf : EmitState)
    (hplan : composePlan ta cs = .ok plan)
    (hrun : emitList ta plan ⟨0, 0⟩ = .ok (ps, stf))
    (hsplit : plan = pre ++ post)
    (hpre : ∀ pr ∈ pre, pr.1 < 2)
    (hpre0 : ∀ pr ∈ pre, ∀ p, ta.pages.get? pr.1 = some p → p.info.granulePos = 0)
    (hpost : ∀ pr ∈ post, 2 ≤ pr.1) :
    composeStruct ta cs = .ok ps ∧
    (∀ i j p q, i ≤ j → ps.get? i = some p → ps.get? j = some q →
      p.info.granulePos ≤ q.info.granulePos) ∧
    (∀ i pn b p q, plan.get? (i + 1) = some (pn, b) → 2 ≤ pn →
      ps.get? i = some p → ps.get? (i + 1) = some q →
      ∃ d, getDuration q = .ok d ∧
        q.info.granulePos = p.info.granulePos + d) ∧
    (∀ pn b p, plan.get? 0 = some (pn, b) → 2 ≤ pn → ps.get? 0 = some p →
      ∃ d, getDuration p = .ok d ∧ p.info.granulePos = d) := by
  have hgo := composeGo_plan ta cs true plan ⟨0, 0⟩ hplan
  have hcs : composeStruct ta cs = .ok ps := by
    rw [composeStruct, hgo, hrun]
    rfl
  subst hsplit
  rw [emitList_append] at hrun
  obtain ⟨r1, hpreRun, hrun⟩ := bind_ok_destruct _ _ _ hrun
  obtain ⟨r2, hpostRun, hrun⟩ := bind_ok_destruct _ _ _ hrun
  simp only [Except.ok.injEq, Prod.mk.injEq] at hrun
  obtain ⟨hps, hstf⟩ := hrun
  have hH := emitList_headers ta pre ⟨0, 0⟩ r1 hpreRun hpre hpre0
  have hzero : r1.2.granule = 0 := hH.2.1
  have hG := emitList_granule ta post r1.2 r2 hpostRun hpost
  have hlenA : r1.1.length = pre.length := hH.1
  have hadj : ∀ i p q, ps.get? i = some p → ps.get? (i + 1) = some q →
      p.info.granulePos ≤ q.info.granulePos := by
    intro i p q hp hq
    rw [← hps] at hp hq
    by_cases hi1 : i + 1 < r1.1.length
    · rw [get?_append_left _ _ _ (by omega)] at hp
      rw [get?_append_left _ _ _ hi1] at hq
      rw [hH.2.2 p (mem_of_get? _ _ _ hp), hH.2.2 q (mem_of_get? _ _ _ hq)]
    · by_cases hi : i + 1 = r1.1.length
      · rw [get?_append_left _ _ _ (by omega)] at hp
        rw [get?_append_right _ _ _ (by omega)] at hq
        rw [show i + 1 - r1.1.length = 0 from by omega] at hq
        obtain ⟨d, _, hgq⟩ := hG.1 q (by rw [head?_eq_get?_zero]; exact hq)
        rw [hH.2.2 p (mem_of_get? _ _ _ hp), hgq, hzero]
        omega
      · have hge : r1.1.length ≤ i := by omega
        rw [get?_append_right _ _ _ hge] at hp
        rw [get?_append_right _ _ _ (by omega)] at hq
        rw [show i + 1 - r1.1.length = i - r1.1.length + 1 from by omega] at hq
        obtain ⟨d, _, hgq⟩ := hG.2 (i - r1.1.length) p q hp hq
        rw [hgq]
        omega
  refine ⟨hcs, ?_, ?_, ?_⟩
  · intro i j p q hij hp hq
    exact granule_mono_of_adjacent ps hadj j i p q hij hp hq
  · intro i pn b p q hplane h2 hp hq
    rw [← hps] at hp hq
    have hge : pre.length ≤ i + 1 := by
      by_contra hcon
      push_neg at hcon
      rw [get?_append_left _ _ _ hcon] at hplane
      have hmem := hpre _ (mem_of_get? _ _ _ hplane)
      simp only at hmem
      omega
    by_cases hi : i + 1 = pre.length
    · rw [get?_append_left _ _ _ (by omega)] at hp
      rw [get?_append_right _ _ _ (by omega)] at hq
      rw [show i + 1 - r1.1.length = 0 from by omega] at hq
      obtain ⟨d, hd, hgq⟩ := hG.1 q (by rw [head?_eq_get?_zero]; exact hq)
      refine ⟨d, hd, ?_⟩
      rw [hH.2.2 p (mem_of_get? _ _ _ hp), hgq, hzero]
    · have hgt : pre.length < i + 1 := by omega
      rw [get?_append_right _ _ _ (by omega)] at hp
      rw [get?_append_right _ _ _ (by omega)] at hq
      rw [show i + 1 - r1.1.length = i - r1.1.length + 1 from by omega] at hq
      exact hG.2 (i - r1.1.length) p q hp hq
  · intro pn b p hplane h2 hp
    have hpre_nil : pre.length = 0 := by
      by_contra hcon
      rw [get?_append_left _ _ _ (by omega)] at hplane
      have hmem := hpre _ (mem_of_get? _ _ _ hplane)
      simp only at hmem
      omega
    have hA : r1.1 = [] := List.length_eq_zero.mp (by omega)
    rw [← hps, hA, List.nil_append] at hp
    obtain ⟨d, hd, hg⟩ := hG.1 p (by rw [head?_eq_get?_zero]; exact hp)
    refine ⟨d, hd, ?_⟩
    rw [hg, hzero]
    simp

/-- First header page of the C6 runs (granule position 0). -/
def c6h0 : OggPage := ⟨⟨0, 0, 0, 7, 0, 0, 1⟩, [[1]]⟩

/-- Second header page of the C6 witness run (granule position 0). -/
def c6h1 : OggPage := ⟨⟨0, 0, 0, 7, 1, 0, 1⟩, [[2]]⟩

/-- Source page 2 for the C6 runs (duration 240). -/
def c6p2 : OggPage := ⟨⟨0, 0, 777, 7, 2, 0, 1⟩, [[139, 1]]⟩

/-- Source page 3 for the C6 runs (duration 240). -/
def c6p3 : OggPage := ⟨⟨0, 4, 333, 7, 3, 0, 1⟩, [[139, 1]]⟩

/-- The C6 counterexample audio: chapters start at pages 0 and 3, so a
full run emits all four pages, but its page 1 carries the stored granule
position 999 — which `parse_ogg` and `compose` never check. -/
def c6CexTa : TonieAudio :=
  ⟨⟨5, [0, 3]⟩,
    [c6h0, ⟨⟨0, 0, 999, 7, 1, 0, 1⟩, [[2]]⟩, c6p2, c6p3]⟩

set_option maxRecDepth 20000 in
/-- C6, counterexample: composing all chapters of `c6CexTa` emits the
granule positions `[0, 999, 240, 480]` — page 1 is emitted verbatim with
its stored granule position 999 while the accumulator restarts at 0, so
the third emitted page (an audio page with `page_no = 2` and duration
240) has granule position 240: the sequence is not monotonically
non-decreasing (999 > 240), and 240 is not the previous page's 999 plus
the duration 240. -/
theorem C6_granule_counterexample :
    (composeStruct c6CexTa [0, 1]).map
        (fun ps => ps.map fun p => p.info.granulePos) =
      .ok [0, 999, 240, 480] ∧
    (composeStruct c6CexTa [0, 1]).map
        (fun ps => (ps.get? 2).map fun p => (p.info.pageNo, getDuration p)) =
      .ok (some (2, .ok 240)) ∧
    ¬ (999 : Nat) ≤ 240 ∧ (240 : Nat) ≠ 999 + 240 := by
  refine ⟨by decide, by decide, by decide, by decide⟩

/-- The C6 witness audio: the same layout with granule-0 header pages. -/
def c6Ta : TonieAudio := ⟨⟨5, [0, 3]⟩, [c6h0, c6h1, c6p2, c6p3]⟩

/-- The four pages the C6 witness run emits. -/
def c6WitPages : List OggPage :=
  [c6h0, c6h1, serializeWithPage c6p2 true 240 2, serializeWithPage c6p3 true 480 3]

set_option maxRecDepth 20000 in
/-- C6 witness: the amended theorem applied to the full `c6Ta` run
including the two verbatim header pages; the first audio page's granule
position is the header's 0 plus its duration 240, the next is 240 + 240,
and the whole emission — headers included — is non-decreasing. -/
theorem C6_granule_witness :
    composePlan c6Ta [0, 1] = .ok [(0, false), (1, false), (2, true), (3, true)] ∧
    composeStruct c6Ta [0, 1] = .ok c6WitPages ∧
    c6h1.info.granulePos = 0 ∧
    getDuration (serializeWithPage c6p2 true 240 2) = .ok 240 ∧
    (serializeWithPage c6p2 true 240 2).info.granulePos =
      c6h1.info.granulePos + 240 ∧
    getDuration (serializeWithPage c6p3 true 480 3) = .ok 240 ∧
    (serializeWithPage c6p3 true 480 3).info.granulePos =
      (serializeWithPage c6p2 true 240 2).info.granulePos + 240 ∧
    c6h0.info.granulePos ≤ (serializeWithPage c6p3 true 480 3).info.granulePos := by
  have hplan : composePlan c6Ta [0, 1] =
      .ok [(0, false), (1, false), (2, true), (3, true)] := by decide
  have hrun : emitList c6Ta [(0, false), (1, false), (2, true), (3, true)] ⟨0, 0⟩ =
      .ok (c6WitPages, ⟨480, 4⟩) := by decide
  have h := C6_granule c6Ta [0, 1] [(0, false), (1, false), (2, true), (3, true)]
    [(0, false), (1, false)] [(2, true), (3, true)] c6WitPages ⟨480, 4⟩
    hplan hrun rfl (by decide)
    (by
      intro pr hpr p hp
      simp only [List.mem_cons, List.not_mem_nil, or_false] at hpr
      rcases hpr with h1 | h1 <;> subst h1 <;>
        (injection hp with hp; subst hp; rfl))
    (by decide)
  obtain ⟨d1, hd1, hg1⟩ := h.2.2.1 1 2 true c6h1
    (serializeWithPage c6p2 true 240 2) rfl (by omega) rfl rfl
  have hd1' : getDuration (serializeWithPage c6p2 true 240 2) = .ok 240 := by
    rw [getDuration_serializeWithPage]
    decide
  have hd1240 : d1 = 240 := by
    rw [hd1'] at hd1
    injection hd1 with hh
    exact hh.symm
  subst hd1240
  obtain ⟨d2, hd2, hg2⟩ := h.2.2.1 2 3 true (serializeWithPage c6p2 true 240 2)
    (serializeWithPage c6p3 true 480 3) rfl (by omega) rfl rfl
  have hd2' : getDuration (serializeWithPage c6p3 true 480 3) = .ok 240 := by
    rw [getDuration_serializeWithPage]
    decide
  have hd2240 : d2 = 240 := by
    rw [hd2'] at hd2
    injection hd2 with hh
    exact hh.symm
  subst hd2240
  have hmono := h.2.1 0 3 c6h0 (serializeWithPage c6p3 true 480 3)
    (by omega) rfl rfl
  exact ⟨hplan, h.1, rfl, hd1', hg1, hd2', hg2, hmono⟩

/-! ## Claim C1 -/

theorem drop_eq_cons_of_get? {α : Type} (l : List α) (k : Nat) (a : α)
    (h : l.get? k = some a) : l.drop k = a :: l.drop (k + 1) := by
  rw [List.get?_eq_getElem?] at h
  obtain ⟨hlt, he⟩ := List.getElem?_eq_some_iff.mp h
  rw [List.drop_eq_getElem_cons hlt, he]

/-- The emission loop is the identity on a consistent audio: when the
plan visits pages `k, k+1, …` in order, every audio page is a fixed
point of its own relabelling, and the granule positions chain (each
audio page's granule position is the previous one's plus its duration,
restarting at 0 for page 2), the loop reproduces `pages.drop k`
unchanged. -/
theorem emitList_fixpoint (ta : TonieAudio)
    (hchain : ∀ i p q, ta.pages.get? i = some p → ta.pages.get? (i + 1) = some q →
      2 ≤ i + 1 → ∃ d, getDuration q = .ok d ∧
        q.info.granulePos = (if i + 1 = 2 then 0 else p.info.granulePos) + d) :
    ∀ (pl : List (Nat × Bool)) (k g : Nat),
      pl.map Prod.fst = List.range' k (ta.pages.length - k) →
      (∀ i b p, (i, b) ∈ pl → ta.pages.get? i = some p → 2 ≤ i →
        serializeWithPage p b p.info.granulePos i = p) →
      (k ≤ 2 → g = 0) →
      (2 < k → ∃ p, ta.pages.get? (k - 1) = some p ∧ p.info.granulePos = g) →
      ∃ stf, emitList ta pl ⟨g, k⟩ = .ok (ta.pages.drop k, stf) := by
  intro pl
  induction pl with
  | nil =>
    intro k g hids hfix hg0 hgprev
    refine ⟨⟨g, k⟩, ?_⟩
    have hlen : ta.pages.length - k = 0 :=
      List.range'_eq_nil.mp hids.symm
    rw [List.drop_eq_nil_of_le (by omega)]
    rfl
  | cons pr rest ih =>
    intro k g hids hfix hg0 hgprev
    obtain ⟨pn, b⟩ := pr
    have hpos : ta.pages.length - k ≠ 0 := by
      intro hcon
      rw [hcon] at hids
      exact absurd hids (by simp)
    obtain ⟨m, hm⟩ : ∃ m, ta.pages.length - k = m + 1 :=
      ⟨ta.pages.length - k - 1, by omega⟩
    rw [hm, List.range'_succ k m 1] at hids
    simp only [List.map_cons, List.cons.injEq] at hids
    obtain ⟨hpn, hrest⟩ := hids
    have hkpn : k = pn := hpn.symm
    subst hkpn
    have hklen : k < ta.pages.length := by omega
    have hrest' : rest.map Prod.fst =
        List.range' (k + 1) (ta.pages.length - (k + 1)) := by
      rw [hrest]
      congr 1
      omega
    match hp : ta.pages.get? k with
    | none =>
      exfalso
      rw [List.get?_eq_getElem?, List.getElem?_eq_none_iff] at hp
      omega
    | some p =>
      by_cases hk2 : k < 2
      · have hone : emitOne ta k b ⟨g, k⟩ = .ok (p, ⟨g, k + 1⟩) := by
          simp only [emitOne, hp]
          rw [if_pos hk2]
        obtain ⟨stf, hrec⟩ := ih (k + 1) g hrest'
          (fun i b' p' hm' hp' h2 =>
            hfix i b' p' (List.mem_cons_of_mem _ hm') hp' h2)
          (fun _ => hg0 (by omega))
          (fun hcon => absurd hcon (by omega))
        refine ⟨stf, ?_⟩
        simp only [emitList]
        rw [hone, except_bind_ok]
        simp only
        rw [hrec, except_bind_ok]
        rw [drop_eq_cons_of_get? ta.pages k p hp]
      · have hgd : ∃ d, getDuration p = .ok d ∧ p.info.granulePos = g + d := by
          by_cases hk2e : k = 2
          · subst hk2e
            have hg' : g = 0 := hg0 (by omega)
            match hp1 : ta.pages.get? 1 with
            | none =>
              exfalso
              rw [List.get?_eq_getElem?, List.getElem?_eq_none_iff] at hp1
              omega
            | some p1 =>
              obtain ⟨d, hd, hgq⟩ := hchain 1 p1 p hp1 hp (by omega)
              refine ⟨d, hd, ?_⟩
              rw [hgq, hg']
              simp
          · have hk3 : 2 < k := by omega
            obtain ⟨pprev, hpprev, hgprev'⟩ := hgprev hk3
            have hkk : k - 1 + 1 = k := by omega
            obtain ⟨d, hd, hgq⟩ := hchain (k - 1) pprev p hpprev
              (by rw [hkk]; exact hp) (by omega)
            refine ⟨d, hd, ?_⟩
            rw [hgq, if_neg (by omega), hgprev']
        obtain ⟨d, hd, hpg⟩ := hgd
        have hfixk := hfix k b p (by simp) hp (by omega)
        have hone : emitOne ta k b ⟨g, k⟩ = .ok (p, ⟨g + d, k + 1⟩) := by
          simp only [emitOne, hp]
          rw [if_neg (by omega), hd, except_bind_ok]
          have hgd' : (⟨g, k⟩ : EmitState).granule + d = p.info.granulePos := by
            rw [hpg]
          rw [hgd']
          rw [hfixk]
        obtain ⟨stf, hrec⟩ := ih (k + 1) (g + d) hrest'
          (fun i b' p' hm' hp' h2 =>
            hfix i b' p' (List.mem_cons_of_mem _ hm') hp' h2)
          (fun hcon => absurd (by omega : ¬ k + 1 ≤ 2) (fun hcc => hcc hcon))
          (fun _ => ⟨p, by rw [show k + 1 - 1 = k from by omega]; exact hp, hpg⟩)
        refine ⟨stf, ?_⟩
        simp only [emitList]
        rw [hone, except_bind_ok]
        simp only
        rw [hrec, except_bind_ok]
        rw [drop_eq_cons_of_get? ta.pages k p hp]

/-- C1, amended (the compose half): for a consistent parsed audio — the
plan of a full run over all chapters visits every page in order, every
audio page is a fixed point of its own relabelling (correct `page_no`,
stored `granule_position`, per-chapter `is_last` flag, valid checksum),
and the granule positions chain by `get_duration` restarting at 0 for
page 2 — `compose` over all chapters reproduces the parsed pages
verbatim, so the emitted Ogg payload (which is exactly the byte sequence
hashed into `dataHash`) equals the source file's page bytes.  The parse
half of the original claim is refuted separately: `parse_tonie` fails on
files this tool itself emits. -/
theorem C1_compose_roundtrip (ta : TonieAudio) (plan : List (Nat × Bool))
    (hplan : composePlan ta (List.range (getChapterCount ta)) = .ok plan)
    (hcover : plan.map Prod.fst = List.range ta.pages.length)
    (hchain : ∀ i p q, ta.pages.get? i = some p → ta.pages.get? (i + 1) = some q →
      2 ≤ i + 1 → ∃ d, getDuration q = .ok d ∧
        q.info.granulePos = (if i + 1 = 2 then 0 else p.info.granulePos) + d)
    (hfix : ∀ i b p, (i, b) ∈ plan → ta.pages.get? i = some p → 2 ≤ i →
      serializeWithPage p b p.info.granulePos i = p) :
    composeStruct ta (List.range (getChapterCount ta)) = .ok ta.pages ∧
    composePayload ta (List.range (getChapterCount ta)) =
      .ok ((ta.pages.map OggPage.serialize).flatten) := by
  have hcover' : plan.map Prod.fst =
      List.range' 0 (ta.pages.length - 0) := by
    rw [hcover, Nat.sub_zero, List.range_eq_range']
  obtain ⟨stf, hemit⟩ := emitList_fixpoint ta hchain plan 0 0 hcover' hfix
    (fun _ => rfl) (fun hcon => absurd hcon (by omega))
  rw [List.drop_zero] at hemit
  have hgo := composeGo_plan ta (List.range (getChapterCount ta)) true plan
    ⟨0, 0⟩ hplan
  have hcs : composeStruct ta (List.range (getChapterCount ta)) = .ok ta.pages := by
    rw [composeStruct, hgo, hemit]
    rfl
  refine ⟨hcs, ?_⟩
  rw [composePayload, composeBlocks, hcs]
  rfl

/-- First page of the C1 counterexample file. -/
def c1CexP0 : OggPage := ⟨⟨0, 0, 0, 7, 0, 0, 1⟩, [[1]]⟩

/-- Second page of the C1 counterexample file. -/
def c1CexP1 : OggPage := ⟨⟨0, 0, 0, 7, 1, 0, 1⟩, [[2]]⟩

/-- Final page of the C1 counterexample file: exactly 4096 serialized
bytes, with its last Opus packet `[131, 65, 0]` already framepacking 3
and Opus-padded (padding bit set) — the shape this tool itself emits. -/
def c1CexP2 : OggPage :=
  ⟨⟨0, 4, 240, 7, 2, 0, 17⟩,
    List.replicate 15 (List.replicate 255 0) ++ [List.replicate 224 0, [131, 65, 0]]⟩

/-- The three pages of the C1 counterexample file. -/
def c1CexPages : List OggPage := [c1CexP0, c1CexP1, c1CexP2]

set_option maxRecDepth 20000 in
/-- C1, counterexample (the parse half): a well-formed tonie file whose
final page is exactly `PAGE_SIZE` bytes with an already-padded final
packet — the very shape `compose`d files have — cannot be parsed at all:
`parse_tonie` unconditionally re-pads the final packet and `pad_packet`
rejects a set padding bit, so `parse ∘ compose` cannot reproduce any such
file. -/
theorem C1_compose_roundtrip_counterexample :
    pageWF c1CexP0 0 ∧ pageWF c1CexP1 1 ∧ pageWF c1CexP2 2 ∧
    c1CexP2.serialize.length = PAGE_SIZE ∧
    parseTonieFrom ⟨5, [0]⟩ ((c1CexPages.map OggPage.serialize).flatten) =
      .error .unsupportedOpus := by
  have hr : parseOgg ((c1CexPages.map OggPage.serialize).flatten) =
      .ok c1CexPages := by
    refine parseOggAux_roundtrip c1CexPages 0 ?_
    intro i hi
    match i with
    | 0 => exact (by decide : pageWF c1CexP0 0)
    | 1 => exact (by decide : pageWF c1CexP1 1)
    | 2 => exact (by decide : pageWF c1CexP2 2)
    | n + 3 =>
      exfalso
      simp only [c1CexPages, List.length_cons, List.length_nil] at hi
      omega
  have hpt : parseToniePages c1CexPages = .error .unsupportedOpus := by decide
  refine ⟨by decide, by decide, by decide, ?_, ?_⟩
  · rw [serialize_length]
    simp only [OggPage.getSize, c1CexP2, List.length_append,
      List.length_replicate, List.map_append, List.map_replicate,
      List.sum_append, List.sum_replicate, List.map_cons, List.map_nil,
      List.sum_cons, List.sum_nil, List.length_cons, List.length_nil,
      smul_eq_mul]
    rfl
  · rw [parseTonieFrom, hr, except_bind_ok, hpt, except_bind_err]

/-- Pages 0 and 1 of the C1 witness audio. -/
def c1w0 : OggPage := ⟨⟨0, 0, 0, 7, 0, 0, 1⟩, [[1]]⟩

/-- Page 1 of the C1 witness audio. -/
def c1w1 : OggPage := ⟨⟨0, 0, 0, 7, 1, 0, 1⟩, [[2]]⟩

/-- Page 2 of the C1 witness audio: a fixed point of its own
relabelling (chapter-final, granule position 240 = its duration,
page number 2, recomputed checksum). -/
def c1w2 : OggPage := serializeWithPage ⟨⟨0, 0, 0, 7, 0, 0, 1⟩, [[139, 1]]⟩ true 240 2

/-- Page 3 of the C1 witness audio: likewise with granule position
240 + 240 = 480 and page number 3. -/
def c1w3 : OggPage := serializeWithPage ⟨⟨0, 0, 0, 7, 0, 0, 1⟩, [[139, 1]]⟩ true 480 3

/-- The C1 witness audio: chapters start at pages 0 and 3, so the full
run [0, 1] visits pages 0, 1, 2, 3 in order. -/
def c1WitTa : TonieAudio := ⟨⟨5, [0, 3]⟩, [c1w0, c1w1, c1w2, c1w3]⟩

set_option maxRecDepth 20000 in
/-- C1 witness: the amended compose half applied to the consistent
`c1WitTa`; composing all chapters reproduces the pages and the payload
verbatim. -/
theorem C1_compose_roundtrip_witness :
    composePlan c1WitTa (List.range (getChapterCount c1WitTa)) =
      .ok [(0, false), (1, false), (2, true), (3, true)] ∧
    composeStruct c1WitTa (List.range (getChapterCount c1WitTa)) =
      .ok c1WitTa.pages ∧
    composePayload c1WitTa (List.range (getChapterCount c1WitTa)) =
      .ok ((c1WitTa.pages.map OggPage.serialize).flatten) := by
  have hplan : composePlan c1WitTa (List.range (getChapterCount c1WitTa)) =
      .ok [(0, false), (1, false), (2, true), (3, true)] := by decide
  have hchain : ∀ i p q, c1WitTa.pages.get? i = some p →
      c1WitTa.pages.get? (i + 1) = some q → 2 ≤ i + 1 →
      ∃ d, getDuration q = .ok d ∧
        q.info.granulePos = (if i + 1 = 2 then 0 else p.info.granulePos) + d := by
    intro i p q hp hq h2
    match i with
    | 0 => omega
    | 1 =>
      injection hp with hp
      injection hq with hq
      subst hp
      subst hq
      exact ⟨240, by decide, by decide⟩
    | 2 =>
      injection hp with hp
      injection hq with hq
      subst hp
      subst hq
      exact ⟨240, by decide, by decide⟩
    | n + 3 =>
      exfalso
      have : c1WitTa.pages.get? (n + 4) = none := by
        rw [List.get?_eq_getElem?, List.getElem?_eq_none]
        simp [c1WitTa]
      rw [this] at hq
      exact absurd hq (by simp)
  have hfix : ∀ i b p, (i, b) ∈ [((0 : Nat), false), (1, false), (2, true), (3, true)] →
      c1WitTa.pages.get? i = some p → 2 ≤ i →
      serializeWithPage p b p.info.granulePos i = p := by
    intro i b p hmem hp h2
    simp only [List.mem_cons, List.not_mem_nil, or_false, Prod.mk.injEq] at hmem
    rcases hmem with ⟨hi, hb⟩ | ⟨hi, hb⟩ | ⟨hi, hb⟩ | ⟨hi, hb⟩ <;> subst hi <;> subst hb
    · omega
    · omega
    · injection hp with hp
      subst hp
      decide
    · injection hp with hp
      subst hp
      decide
  have h := C1_compose_roundtrip c1WitTa [(0, false), (1, false), (2, true), (3, true)]
    hplan (by decide) hchain hfix
  exact ⟨hplan, h.1, h.2⟩

end Tonie
